import Mathlib

/-!
Verification of the scene-splitting utility `scripts/split_route_gu_wan_scenes.py`.

The script loads a JSON route document, iterates the list under the key
`scenes`, and writes every scene that has a truthy `scene_id` to its own
file `<output_dir>/<scene_id>.json`, serialized with `json.dump(scene, out,
ensure_ascii=False, indent=4)` followed by one newline.

The embedding below models:
- JSON values (`Json`), with numbers as integers; float literals are outside
  the model (the script itself applies no arithmetic to any number).
- The serializer of the standard `json` module for the exact argument
  combination used by the script (`ensure_ascii=False, indent=4`), as
  `prettyL` and `jsonDump`.
- The parser of the standard `json` module (`json.load` and `json.loads`)
  as a fuel-indexed recursive descent parser, `parseValue` and `jsonLoads`.
  Objects are built by insertion in key order, mirroring how the Python
  decoder fills a dict, so later duplicate keys overwrite earlier values
  in place.
- The filesystem as a record `FS` of existing directories, a path-indexed
  association list of file contents, and a log of executed file writes.
  File contents are unicode text; the byte-level UTF-8 encoding of the
  `open(..., encoding="utf-8")` calls is abstracted away.
- The three functions of the script: `load_route_json`, `write_scene_file`
  and `main`, the latter parameterized by the resolved project root.
-/

set_option maxHeartbeats 1600000

namespace RouteSplit

/-- JSON values. Object fields are kept in insertion order, exactly as a
Python dict preserves them; numbers are modeled as integers. -/
inductive Json where
  | null : Json
  | bool : Bool → Json
  | num : Int → Json
  | str : String → Json
  | arr : List Json → Json
  | obj : List (String × Json) → Json

mutual

/-- Structural size of a JSON value, used as a fuel bound for the parser. -/
def sizeJ : Json → Nat
  | .null => 1
  | .bool _ => 1
  | .num _ => 1
  | .str _ => 1
  | .arr xs => 2 + sizeItems xs
  | .obj kvs => 2 + sizePairs kvs

/-- Combined size of the elements of a JSON array. -/
def sizeItems : List Json → Nat
  | [] => 0
  | x :: t => 1 + sizeJ x + sizeItems t

/-- Combined size of the values of a JSON object. -/
def sizePairs : List (String × Json) → Nat
  | [] => 0
  | (_, v) :: t => 1 + sizeJ v + sizePairs t

end

/-- Python truthiness of a JSON value: `None`, `False`, `0`, the empty
string, the empty list and the empty dict are falsy. -/
def Json.truthy : Json → Bool
  | .null => false
  | .bool b => b
  | .num n => n != 0
  | .str s => !s.isEmpty
  | .arr xs => !xs.isEmpty
  | .obj kvs => !kvs.isEmpty

/-- Whether a JSON value is an object (a Python dict). -/
def Json.isObj : Json → Bool
  | .obj _ => true
  | _ => false

/-- Lookup of a key in an association list (Python dict access; dict keys
are unique, so first match equals the unique match). -/
def alookup {α : Type} : List (String × α) → String → Option α
  | [], _ => none
  | (k, v) :: t, key => if k = key then some v else alookup t key

/-- Python dict assignment `d[k] = v`: replace the value in place if the key
exists, otherwise append the binding. -/
def objInsert : List (String × Json) → String → Json → List (String × Json)
  | [], k, v => [(k, v)]
  | (k1, v1) :: t, k, v =>
    if k1 = k then (k1, v) :: t else (k1, v1) :: objInsert t k v

/-- Membership of a string in a list of strings. -/
def strMem (k : String) : List String → Bool
  | [] => false
  | k1 :: t => if k1 = k then true else strMem k t

/-- Keys of an association list are pairwise distinct (every Python dict
satisfies this). -/
def nodupKeys : List (String × Json) → Bool
  | [] => true
  | (k, _) :: t => !strMem k (t.map Prod.fst) && nodupKeys t

mutual

/-- Well-formedness of a JSON value as produced by the Python decoder:
every object in it has pairwise distinct keys. -/
def wfJ : Json → Bool
  | .null => true
  | .bool _ => true
  | .num _ => true
  | .str _ => true
  | .arr xs => wfItems xs
  | .obj kvs => nodupKeys kvs && wfPairs kvs

/-- Well-formedness of all elements of an array. -/
def wfItems : List Json → Bool
  | [] => true
  | x :: t => wfJ x && wfItems t

/-- Well-formedness of all values of an object. -/
def wfPairs : List (String × Json) → Bool
  | [] => true
  | (_, v) :: t => wfJ v && wfPairs t

end

/-- Decimal digit character. -/
def digitChar (n : Nat) : Char := Char.ofNat (48 + n)

/-- Decimal digits of a natural number, most significant first, computed
with an explicit fuel so that the definition is structural. -/
def natCharsAux : Nat → Nat → List Char
  | 0, _ => []
  | f + 1, n =>
    if n < 10 then [digitChar n]
    else natCharsAux f (n / 10) ++ [digitChar (n % 10)]

/-- Decimal digits of a natural number, most significant first. -/
def natChars (n : Nat) : List Char := natCharsAux (n + 1) n

/-- Decimal rendering of a natural number, as Python `str` produces it. -/
def natStr (n : Nat) : String := String.mk (natChars n)

/-- Decimal rendering of an integer, as Python `str` and the `json`
serializer produce it. -/
def intChars (n : Int) : List Char :=
  if n < 0 then '-' :: natChars n.natAbs else natChars n.toNat

/-- String form of an integer. -/
def intStr (n : Int) : String := String.mk (intChars n)

/-- Lowercase hexadecimal digit character. -/
def hexDigitChar (n : Nat) : Char :=
  if n < 10 then Char.ofNat (48 + n) else Char.ofNat (87 + n)

/-- Escaping of one character inside a JSON string literal, following the
escape table of the Python `json` encoder with `ensure_ascii=False`: only
the backslash, the double quote and control characters below 0x20 are
escaped; everything else, including all non-ASCII characters, is emitted
literally. -/
def escChar (c : Char) : List Char :=
  if c = '\\' then ['\\', '\\']
  else if c = '"' then ['\\', '"']
  else if c = '\n' then ['\\', 'n']
  else if c = '\t' then ['\\', 't']
  else if c = '\r' then ['\\', 'r']
  else if c.toNat = 8 then ['\\', 'b']
  else if c.toNat = 12 then ['\\', 'f']
  else if c.toNat < 32 then
    ['\\', 'u', '0', '0', hexDigitChar (c.toNat / 16), hexDigitChar (c.toNat % 16)]
  else [c]

/-- Escaping of a character sequence inside a JSON string literal. -/
def escList : List Char → List Char
  | [] => []
  | c :: t => escChar c ++ escList t

/-- A JSON string literal: quote, escaped content, quote. -/
def strLit (s : String) : List Char := '"' :: (escList s.data ++ ['"'])

/-- Indentation emitted by the serializer for nesting depth `lvl` with
`indent=4`: four spaces per level. -/
def indentChars (lvl : Nat) : List Char := List.replicate (4 * lvl) ' '

mutual

/-- Serialization of a JSON value at nesting depth `lvl`, following
`json.dump(value, out, ensure_ascii=False, indent=4)`: empty containers
are `[]` and `\x7b\x7d`, non-empty containers put every entry on its own
indented line, and the key separator is a colon and one space. -/
def prettyL : Json → Nat → List Char
  | .null, _ => 'n' :: ['u', 'l', 'l']
  | .bool true, _ => 't' :: ['r', 'u', 'e']
  | .bool false, _ => 'f' :: ['a', 'l', 's', 'e']
  | .num n, _ => intChars n
  | .str s, _ => strLit s
  | .arr [], _ => ['[', ']']
  | .arr (x :: xs), lvl =>
    '[' :: '\n' :: (indentChars (lvl + 1) ++ prettyItemsCore (x :: xs) (lvl + 1)
      ++ '\n' :: (indentChars lvl ++ [']']))
  | .obj [], _ => ['{', '}']
  | .obj (p :: ps), lvl =>
    '{' :: '\n' :: (indentChars (lvl + 1) ++ prettyPairsCore (p :: ps) (lvl + 1)
      ++ '\n' :: (indentChars lvl ++ ['}']))

/-- Serialization of the elements of a non-empty array, separated by a
comma, a newline and the indentation of depth `lvl`; the leading
indentation of the first element is emitted by the caller. -/
def prettyItemsCore : List Json → Nat → List Char
  | [], _ => []
  | [x], lvl => prettyL x lvl
  | x :: y :: t, lvl =>
    prettyL x lvl ++ ',' :: '\n' :: (indentChars lvl ++ prettyItemsCore (y :: t) lvl)

/-- Serialization of the members of a non-empty object. -/
def prettyPairsCore : List (String × Json) → Nat → List Char
  | [], _ => []
  | [(k, v)], lvl => strLit k ++ ':' :: ' ' :: prettyL v lvl
  | (k, v) :: q :: t, lvl =>
    strLit k ++ ':' :: ' ' :: prettyL v lvl
      ++ ',' :: '\n' :: (indentChars lvl ++ prettyPairsCore (q :: t) lvl)

end

/-- Text produced by `json.dump(value, out, ensure_ascii=False, indent=4)`. -/
def jsonDump (j : Json) : String := String.mk (prettyL j 0)

mutual

/-- Python `repr` of a JSON value, used only to model the f-string
`f"..."` interpolation for the untypical case of a truthy container
scene identifier; the data model of the route file types `scene_id` as a
string, on which `pyStr` below is exact. Container and string rendering
follows the bracket, comma and quote layout of `repr`; the escaping that
`repr` applies inside quoted strings is not reproduced. -/
def pyRepr : Json → String
  | .null => "None"
  | .bool true => "True"
  | .bool false => "False"
  | .num n => intStr n
  | .str s => "'" ++ s ++ "'"
  | .arr xs => "[" ++ pyReprItems xs ++ "]"
  | .obj kvs => "\x7b" ++ pyReprPairs kvs ++ "\x7d"

/-- Comma-separated `repr` of array elements. -/
def pyReprItems : List Json → String
  | [] => ""
  | [x] => pyRepr x
  | x :: y :: t => pyRepr x ++ ", " ++ pyReprItems (y :: t)

/-- Comma-separated `repr` of object members. -/
def pyReprPairs : List (String × Json) → String
  | [] => ""
  | [(k, v)] => "'" ++ k ++ "': " ++ pyRepr v
  | (k, v) :: q :: t =>
    "'" ++ k ++ "': " ++ pyRepr v ++ ", " ++ pyReprPairs (q :: t)

end

/-- Python `str` of a JSON value, as used by the f-string
`f"\x7bscene_id\x7d.json"`: identity on strings, `str` on scalars,
`repr` on containers. -/
def Json.pyStr : Json → String
  | .null => "None"
  | .bool true => "True"
  | .bool false => "False"
  | .num n => intStr n
  | .str s => s
  | .arr xs => pyRepr (.arr xs)
  | .obj kvs => pyRepr (.obj kvs)

/-- JSON insignificant whitespace. -/
def isWsChar (c : Char) : Bool := c = ' ' || c = '\t' || c = '\n' || c = '\r'

/-- Skipping of insignificant whitespace, as the Python decoder does
between tokens. -/
def skipWs : List Char → List Char
  | [] => []
  | c :: t => if isWsChar c then skipWs t else c :: t

/-- Decimal digit test. -/
def isDig (c : Char) : Bool := 48 ≤ c.toNat && c.toNat ≤ 57

/-- Numeric value of a decimal digit character. -/
def digitVal (c : Char) : Nat := c.toNat - 48

/-- Maximal-munch accumulation of decimal digits. -/
def parseDigitsAux (acc : Nat) : List Char → Nat × List Char
  | [] => (acc, [])
  | c :: t =>
    if isDig c then parseDigitsAux (acc * 10 + digitVal c) t else (acc, c :: t)

/-- Parsing of an unsigned integer literal. Following the number grammar of
the Python decoder, a leading zero is a complete literal by itself. -/
def parseNat : List Char → Option (Nat × List Char)
  | [] => none
  | c :: t =>
    if c = '0' then some (0, t)
    else if isDig c then some (parseDigitsAux (digitVal c) t)
    else none

/-- Parsing of an integer literal with an optional leading minus sign. -/
def parseNumber : List Char → Option (Int × List Char)
  | [] => none
  | c :: t =>
    if c = '-' then (parseNat t).map fun p => (-(p.1 : Int), p.2)
    else (parseNat (c :: t)).map fun p => ((p.1 : Int), p.2)

/-- Value of a hexadecimal digit character. -/
def hexVal (c : Char) : Option Nat :=
  if 48 ≤ c.toNat ∧ c.toNat ≤ 57 then some (c.toNat - 48)
  else if 97 ≤ c.toNat ∧ c.toNat ≤ 102 then some (c.toNat - 87)
  else if 65 ≤ c.toNat ∧ c.toNat ≤ 70 then some (c.toNat - 55)
  else none

/-- Prepending of a character to the content part of a string-parse
result. -/
def consRes (c : Char) (o : Option (List Char × List Char)) :
    Option (List Char × List Char) :=
  o.map fun p => (c :: p.1, p.2)

/-- Parsing of the body of a JSON string literal after the opening quote,
with the backslash escapes of the JSON grammar. A `\u` escape denotes the
code point given by its four hexadecimal digits; combining surrogate pairs
is not modeled, as the serializer under study never emits them. -/
def parseStringBody : List Char → Option (List Char × List Char)
  | [] => none
  | '"' :: t => some ([], t)
  | '\\' :: '"' :: t2 => consRes '"' (parseStringBody t2)
  | '\\' :: '\\' :: t2 => consRes '\\' (parseStringBody t2)
  | '\\' :: '/' :: t2 => consRes '/' (parseStringBody t2)
  | '\\' :: 'b' :: t2 => consRes (Char.ofNat 8) (parseStringBody t2)
  | '\\' :: 'f' :: t2 => consRes (Char.ofNat 12) (parseStringBody t2)
  | '\\' :: 'n' :: t2 => consRes '\n' (parseStringBody t2)
  | '\\' :: 'r' :: t2 => consRes '\r' (parseStringBody t2)
  | '\\' :: 't' :: t2 => consRes '\t' (parseStringBody t2)
  | '\\' :: 'u' :: h1 :: h2 :: h3 :: h4 :: t3 =>
    match hexVal h1, hexVal h2, hexVal h3, hexVal h4 with
    | some a, some b, some c2, some d =>
      consRes (Char.ofNat (((a * 16 + b) * 16 + c2) * 16 + d)) (parseStringBody t3)
    | _, _, _, _ => none
  | '\\' :: _ => none
  | c :: t => consRes c (parseStringBody t)

mutual

/-- Recursive-descent parsing of one JSON value, the model of the Python
decoder. The fuel argument only bounds the nesting of the recursion;
`parseTop` supplies more fuel than any input can consume. -/
def parseValue : Nat → List Char → Option (Json × List Char)
  | 0, _ => none
  | f + 1, cs =>
    match skipWs cs with
    | [] => none
    | c :: t =>
      if c = '{' then
        match skipWs t with
        | [] => none
        | c2 :: t2 =>
          if c2 = '}' then some (.obj [], t2)
          else (parseMembers f [] (c2 :: t2)).map fun p => (.obj p.1, p.2)
      else if c = '[' then
        match skipWs t with
        | [] => none
        | c2 :: t2 =>
          if c2 = ']' then some (.arr [], t2)
          else (parseItems f (c2 :: t2)).map fun p => (.arr p.1, p.2)
      else if c = '"' then
        (parseStringBody t).map fun p => (.str (String.mk p.1), p.2)
      else if c = 'n' then
        match t with
        | 'u' :: 'l' :: 'l' :: r => some (.null, r)
        | _ => none
      else if c = 't' then
        match t with
        | 'r' :: 'u' :: 'e' :: r => some (.bool true, r)
        | _ => none
      else if c = 'f' then
        match t with
        | 'a' :: 'l' :: 's' :: 'e' :: r => some (.bool false, r)
        | _ => none
      else if c = '-' || isDig c then
        (parseNumber (c :: t)).map fun p => (.num p.1, p.2)
      else none

/-- Parsing of the comma-separated elements of a non-empty array, up to and
including the closing bracket. -/
def parseItems : Nat → List Char → Option (List Json × List Char)
  | 0, _ => none
  | f + 1, cs =>
    match parseValue f cs with
    | none => none
    | some (v, r) =>
      match skipWs r with
      | [] => none
      | c :: r2 =>
        if c = ',' then (parseItems f r2).map fun p => (v :: p.1, p.2)
        else if c = ']' then some ([v], r2)
        else none

/-- Parsing of the members of a non-empty object, up to and including the
closing brace, accumulating the members by dict insertion. -/
def parseMembers : Nat → List (String × Json) → List Char →
    Option (List (String × Json) × List Char)
  | 0, _, _ => none
  | f + 1, acc, cs =>
    match skipWs cs with
    | [] => none
    | c :: t =>
      if c = '"' then
        match parseStringBody t with
        | none => none
        | some (k, r) =>
          match skipWs r with
          | [] => none
          | c2 :: r2 =>
            if c2 = ':' then
              match parseValue f r2 with
              | none => none
              | some (v, r3) =>
                match skipWs r3 with
                | [] => none
                | c3 :: r4 =>
                  if c3 = ',' then parseMembers f (objInsert acc (String.mk k) v) r4
                  else if c3 = '}' then some (objInsert acc (String.mk k) v, r4)
                  else none
            else none
      else none

end

/-- Parsing of a full document: one value, then only whitespace up to the
end of input. -/
def parseTop (cs : List Char) : Option Json :=
  match parseValue (cs.length + 1) cs with
  | none => none
  | some (j, r) => if skipWs r = [] then some j else none

/-- Model of `json.loads` on text (and of `json.load` on the text read from
a file): the parsed value, or `none` for the `json.JSONDecodeError` raised
on malformed input. -/
def jsonLoads (s : String) : Option Json := parseTop s.data

/-- First character of a string equals `c`. -/
def strHeadIs (s : String) (c : Char) : Bool :=
  match s.data with
  | [] => false
  | c1 :: _ => c1 = c

/-- Last character of a string equals `c`. -/
def strLastIs (s : String) (c : Char) : Bool :=
  match s.data.getLast? with
  | none => false
  | some c1 => c1 = c

/-- POSIX `os.path.join` on two components: an absolute second component
discards the first; otherwise a separator is inserted unless the first
component is empty or already ends with one. -/
def ospJoin (a b : String) : String :=
  if strHeadIs b '/' then b
  else if a = "" || strLastIs a '/' then a ++ b
  else a ++ "/" ++ b

/-- Exceptions the script can raise. `fileNotFound` models the
`FileNotFoundError` of `open` on a missing path, `jsonDecodeError` the
parse failure of `json.load`, `attributeError` the `.get` call on a value
that is not a dict, and `typeError` iteration over a non-iterable. -/
inductive PyError where
  | fileNotFound : PyError
  | jsonDecodeError : PyError
  | attributeError : PyError
  | typeError : PyError

/-- Filesystem state: the set of directories that exist, the contents of
regular files indexed by path, and a log of the file writes executed so
far, each with the written content. -/
structure FS where
  dirs : List String
  files : List (String × String)
  writeLog : List (String × String)

/-- Content of the regular file at a path, if present. -/
def getFile (fs : FS) (p : String) : Option String := alookup fs.files p

/-- Update of an association list at a key. -/
def setKV {α : Type} : List (String × α) → String → α → List (String × α)
  | [], k, v => [(k, v)]
  | (k1, v1) :: t, k, v =>
    if k1 = k then (k1, v) :: t else (k1, v1) :: setKV t k v

/-- Effect of `open(path, "w")` followed by writing `content`: the file is
created or overwritten, and the write is logged. -/
def fsWrite (fs : FS) (p : String) (content : String) : FS :=
  { fs with files := setKV fs.files p content,
            writeLog := fs.writeLog ++ [(p, content)] }

/-- Effect of `os.makedirs(d, exist_ok=True)`: the directory exists
afterwards; nothing else changes, and the call is idempotent. -/
def makedirs (fs : FS) (d : String) : FS :=
  { fs with dirs := if strMem d fs.dirs then fs.dirs else d :: fs.dirs }

/-- Model of `load_route_json`: read the file at the path and parse it as
JSON. A missing path raises `FileNotFoundError`; malformed content raises
`json.JSONDecodeError`. -/
def load_route_json (fs : FS) (route_path : String) : Except PyError Json :=
  match getFile fs route_path with
  | none => .error .fileNotFound
  | some content =>
    match jsonLoads content with
    | none => .error .jsonDecodeError
    | some j => .ok j

/-- Serialized form a written scene file holds: the JSON text followed by
the one newline the script writes after it. -/
def sceneContent (scene : Json) : String := jsonDump scene ++ "\n"

/-- Model of `write_scene_file`: read `scene_id` from the scene; on a falsy
identifier return the empty string without touching the filesystem;
otherwise ensure the output directory exists, then write the serialized
scene to `<output_dir>/<scene_id>.json` and return that path. Calling
`.get` on a non-dict scene raises `AttributeError`. -/
def write_scene_file (fs : FS) (output_dir : String) (scene : Json) :
    Except PyError (String × FS) :=
  match scene with
  | .obj kvs =>
    match alookup kvs "scene_id" with
    | none => .ok ("", fs)
    | some sid =>
      if sid.truthy then
        let fs1 := makedirs fs output_dir
        let out_path := ospJoin output_dir (sid.pyStr ++ ".json")
        .ok (out_path, fsWrite fs1 out_path (sceneContent scene))
      else .ok ("", fs)
  | _ => .error .attributeError

/-- The loop of `main`: call `write_scene_file` on every scene in list
order, collecting the non-empty returned paths; an exception aborts the
loop, keeping the files already written. -/
def process_scenes (fs : FS) (output_dir : String) :
    List Json → List String → FS × Except PyError (List String)
  | [], acc => (fs, .ok acc)
  | sc :: rest, acc =>
    match write_scene_file fs output_dir sc with
    | .error e => (fs, .error e)
    | .ok (p, fs1) =>
      process_scenes fs1 output_dir rest (if p = "" then acc else acc ++ [p])

/-- Python iteration over a JSON value: lists yield their elements, strings
their characters, dicts their keys; other values are not iterable. -/
def pyIter : Json → Except PyError (List Json)
  | .arr xs => .ok xs
  | .str s => .ok (s.data.map fun c => .str (String.mk [c]))
  | .obj kvs => .ok (kvs.map fun kv => .str kv.1)
  | _ => .error .typeError

/-- Input path resolved by `main`: `<project_root>/data/route_gu_wan.json`. -/
def routePath (project_root : String) : String :=
  ospJoin (ospJoin project_root "data") "route_gu_wan.json"

/-- Output directory resolved by `main`:
`<project_root>/data/route_gu_wan_scenes`. -/
def outputDir (project_root : String) : String :=
  ospJoin (ospJoin project_root "data") "route_gu_wan_scenes"

/-- Model of `main`, parameterized by the resolved project root: load the
route document, take its `scenes` list (empty when the key is absent),
write each scene, and report the printed summary line. The returned `FS`
is the filesystem after the run, also when an exception aborts it; the
`Except` value carries the standard-output line on success and the raised
exception otherwise. -/
def main (project_root : String) (fs : FS) : FS × Except PyError String :=
  let route_path := routePath project_root
  let output_dir := outputDir project_root
  match load_route_json fs route_path with
  | .error e => (fs, .error e)
  | .ok route_data =>
    match route_data with
    | .obj kvs =>
      let scenes := match alookup kvs "scenes" with
        | some v => v
        | none => .arr []
      match pyIter scenes with
      | .error e => (fs, .error e)
      | .ok sceneList =>
        match process_scenes fs output_dir sceneList [] with
        | (fs1, .error e) => (fs1, .error e)
        | (fs1, .ok written) =>
          (fs1, .ok ("written " ++ natStr written.length
            ++ " scene files to " ++ output_dir))
    | _ => (fs, .error .attributeError)

/-- Whether `write_scene_file` writes a file for this scene: it is a dict
whose `scene_id` is present and truthy. -/
def hasId : Json → Bool
  | .obj kvs =>
    match alookup kvs "scene_id" with
    | some sid => sid.truthy
    | none => false
  | _ => false

/-- Output path derived for a scene that gets written. -/
def scenePath (output_dir : String) : Json → String
  | .obj kvs =>
    match alookup kvs "scene_id" with
    | some sid => ospJoin output_dir (sid.pyStr ++ ".json")
    | none => ""
  | _ => ""

/-- The sequence of (path, content) file writes a run performs for a scene
list: one write per scene with a truthy identifier, in list order. -/
def writeEntries (output_dir : String) (scenes : List Json) :
    List (String × String) :=
  (scenes.filter hasId).map fun sc => (scenePath output_dir sc, sceneContent sc)

/-- Replay of a write sequence on a file map. -/
def applyWrites (files : List (String × String)) (E : List (String × String)) :
    List (String × String) :=
  E.foldl (fun m e => setKV m e.1 e.2) files

/-- Content of the last write to a path in a write sequence, if any. -/
def lastWrite (E : List (String × String)) (p : String) : Option String :=
  match E with
  | [] => none
  | e :: t =>
    match lastWrite t p with
    | some v => some v
    | none => if e.1 = p then some e.2 else none

/-- Directory set after `makedirs`. -/
def insertDir (dirs : List String) (d : String) : List String :=
  if strMem d dirs then dirs else d :: dirs

/-- No digit follows: the condition under which a serialized number is
re-read in full by the maximal-munch number parser. -/
def numStop : List Char → Prop
  | [] => True
  | c :: _ => isDig c = false

/-- Every character of the list is JSON whitespace. -/
def wsOnly (l : List Char) : Prop := ∀ c ∈ l, isWsChar c = true

/-- Example route document with one identified scene, used as a concrete
test fixture. -/
def demoRoute : String := "\x7b\"scenes\": [\x7b\"scene_id\": \"s1\"\x7d]\x7d"

/-- Filesystem holding only the example route document. -/
def demoFS : FS := { dirs := [], files := [(routePath "/r", demoRoute)], writeLog := [] }

/-- Example route document with two scenes sharing one identifier. -/
def demoDupRoute : String :=
  "\x7b\"scenes\": [\x7b\"scene_id\": \"s\", \"t\": 1\x7d, \x7b\"scene_id\": \"s\", \"t\": 2\x7d]\x7d"

/-- Filesystem holding only the duplicate-identifier route document. -/
def demoDupFS : FS :=
  { dirs := [], files := [(routePath "/r", demoDupRoute)], writeLog := [] }

/-- First of the two duplicate-identifier scenes. -/
def demoDupScene1 : Json := .obj [("scene_id", .str "s"), ("t", .num 1)]

/-- Second of the two duplicate-identifier scenes. -/
def demoDupScene2 : Json := .obj [("scene_id", .str "s"), ("t", .num 2)]

/-! ### Association list lemmas -/

theorem alookup_setKV_self {α : Type} (l : List (String × α)) (k : String) (v : α) :
    alookup (setKV l k v) k = some v := by
  induction l with
  | nil => simp [setKV, alookup]
  | cons h t ih =>
    obtain ⟨k1, v1⟩ := h
    by_cases hk : k1 = k
    · simp [setKV, alookup, hk]
    · simp [setKV, alookup, hk, ih]

theorem alookup_setKV_other {α : Type} (l : List (String × α)) (k k1 : String) (v : α)
    (h : k1 ≠ k) : alookup (setKV l k v) k1 = alookup l k1 := by
  induction l with
  | nil => simp [setKV, alookup, Ne.symm h]
  | cons p t ih =>
    obtain ⟨k2, v2⟩ := p
    by_cases hk : k2 = k
    · subst hk
      simp [setKV, alookup, Ne.symm h]
    · simp [setKV, alookup, hk, ih]

theorem alookup_append {α : Type} (l1 l2 : List (String × α)) (k : String) :
    alookup (l1 ++ l2) k =
      match alookup l1 k with
      | some v => some v
      | none => alookup l2 k := by
  induction l1 with
  | nil => simp [alookup]
  | cons p t ih =>
    obtain ⟨k1, v1⟩ := p
    by_cases hk : k1 = k
    · simp [alookup, hk]
    · simp [alookup, hk, ih]

theorem objInsert_fresh (l : List (String × Json)) (k : String) (v : Json)
    (h : alookup l k = none) : objInsert l k v = l ++ [(k, v)] := by
  induction l with
  | nil => simp [objInsert]
  | cons p t ih =>
    obtain ⟨k1, v1⟩ := p
    by_cases hk : k1 = k
    · simp [alookup, hk] at h
    · simp [alookup, hk] at h
      simp [objInsert, hk, ih h]

theorem strMem_of_mem {k : String} {l : List String} (h : k ∈ l) :
    strMem k l = true := by
  induction l with
  | nil => simp at h
  | cons k1 t ih =>
    rcases List.mem_cons.mp h with h1 | h1
    · simp [strMem, h1]
    · by_cases hk : k1 = k
      · simp [strMem, hk]
      · simp [strMem, hk, ih h1]

/-! ### Whitespace lemmas -/

theorem skipWs_ws_append {w : List Char} (hw : wsOnly w) (r : List Char) :
    skipWs (w ++ r) = skipWs r := by
  induction w with
  | nil => simp
  | cons c t ih =>
    have hc : isWsChar c = true := hw c (List.mem_cons_self c t)
    have ht : wsOnly t := fun c1 h1 => hw c1 (List.mem_cons_of_mem c h1)
    simp [skipWs, hc, ih ht]

theorem skipWs_not_ws {c : Char} (hc : isWsChar c = false) (r : List Char) :
    skipWs (c :: r) = c :: r := by
  simp [skipWs, hc]

theorem wsOnly_indent (lvl : Nat) : wsOnly (indentChars lvl) := by
  intro c hc
  have : c = ' ' := List.eq_of_mem_replicate hc
  subst this
  rfl

theorem wsOnly_nil : wsOnly [] := by
  intro c hc
  simp at hc

theorem wsOnly_cons {c : Char} {l : List Char} (hc : isWsChar c = true)
    (hl : wsOnly l) : wsOnly (c :: l) := by
  intro c1 h1
  rcases List.mem_cons.mp h1 with h2 | h2
  · subst h2; exact hc
  · exact hl c1 h2

/-! ### Character facts -/

theorem char_ne_of_toNat_ne {c d : Char} (h : c.toNat ≠ d.toNat) : c ≠ d := by
  intro he
  exact h (congrArg Char.toNat he)

theorem isWsChar_toNat {c : Char} (h : isWsChar c = true) :
    c.toNat = 32 ∨ c.toNat = 9 ∨ c.toNat = 10 ∨ c.toNat = 13 := by
  simp [isWsChar] at h
  rcases h with ((h | h) | h) | h <;> subst h <;> decide

theorem isWsChar_false_of_toNat {c : Char}
    (h : c.toNat ≠ 32 ∧ c.toNat ≠ 9 ∧ c.toNat ≠ 10 ∧ c.toNat ≠ 13) :
    isWsChar c = false := by
  cases hw : isWsChar c with
  | false => rfl
  | true =>
    rcases isWsChar_toNat hw with h1 | h1 | h1 | h1 <;> omega

/-! ### Decimal digit lemmas -/

theorem digitChar_toNat {m : Nat} (h : m < 10) : (digitChar m).toNat = 48 + m := by
  interval_cases m <;> rfl

theorem isDig_digitChar {m : Nat} (h : m < 10) : isDig (digitChar m) = true := by
  simp [isDig, digitChar_toNat h]
  omega

theorem digitVal_digitChar {m : Nat} (h : m < 10) : digitVal (digitChar m) = m := by
  simp [digitVal, digitChar_toNat h]

theorem digitChar_ne_zero {m : Nat} (h1 : 1 ≤ m) (h2 : m < 10) : digitChar m ≠ '0' := by
  apply char_ne_of_toNat_ne
  rw [digitChar_toNat h2]
  show 48 + m ≠ 48
  omega

theorem isDig_toNat {c : Char} (h : isDig c = true) :
    48 ≤ c.toNat ∧ c.toNat ≤ 57 := by
  simp [isDig] at h
  exact h

theorem natCharsAux_irrel : ∀ f g n, n < f → n < g → natCharsAux f n = natCharsAux g n := by
  intro f
  induction f using Nat.strong_induction_on with
  | _ f ih =>
    intro g n hf hg
    cases f with
    | zero => omega
    | succ fp =>
      cases g with
      | zero => omega
      | succ gp =>
        simp only [natCharsAux]
        by_cases h10 : n < 10
        · simp [h10]
        · simp only [h10, if_false]
          have hn : n / 10 < n := Nat.div_lt_self (by omega) (by omega)
          rw [ih fp (by omega) gp (n / 10) (by omega) (by omega)]

theorem natChars_lt10 {n : Nat} (h : n < 10) : natChars n = [digitChar n] := by
  simp [natChars, natCharsAux, h]

theorem natChars_ge10 {n : Nat} (h : 10 ≤ n) :
    natChars n = natChars (n / 10) ++ [digitChar (n % 10)] := by
  have hn : n / 10 < n := Nat.div_lt_self (by omega) (by omega)
  show natCharsAux (n + 1) n = natCharsAux (n / 10 + 1) (n / 10) ++ [digitChar (n % 10)]
  have h1 : natCharsAux (n + 1) n = natCharsAux n (n / 10) ++ [digitChar (n % 10)] := by
    simp only [natCharsAux, Nat.not_lt.mpr h, if_false]
  rw [h1, natCharsAux_irrel n (n / 10 + 1) (n / 10) (by omega) (by omega)]

theorem natChars_ne_nil (n : Nat) : natChars n ≠ [] := by
  by_cases h : n < 10
  · simp [natChars_lt10 h]
  · rw [natChars_ge10 (by omega)]
    simp

theorem natChars_all_digits : ∀ n, ∀ c ∈ natChars n, isDig c = true := by
  intro n
  induction n using Nat.strong_induction_on with
  | _ n ih =>
    intro c hc
    by_cases h : n < 10
    · rw [natChars_lt10 h] at hc
      simp at hc
      subst hc
      exact isDig_digitChar h
    · rw [natChars_ge10 (by omega)] at hc
      rcases List.mem_append.mp hc with h1 | h1
      · exact ih (n / 10) (Nat.div_lt_self (by omega) (by omega)) c h1
      · simp at h1
        subst h1
        exact isDig_digitChar (Nat.mod_lt n (by omega))

theorem natChars_head : ∀ n, 1 ≤ n →
    ∃ c t, natChars n = c :: t ∧ isDig c = true ∧ c ≠ '0' := by
  intro n
  induction n using Nat.strong_induction_on with
  | _ n ih =>
    intro h1
    by_cases h : n < 10
    · exact ⟨digitChar n, [], natChars_lt10 h, isDig_digitChar h, digitChar_ne_zero h1 h⟩
    · obtain ⟨c, t, heq, hd, hz⟩ :=
        ih (n / 10) (Nat.div_lt_self (by omega) (by omega)) (by omega)
      exact ⟨c, t ++ [digitChar (n % 10)], by rw [natChars_ge10 (by omega), heq]; rfl, hd, hz⟩

/-! ### Number parsing lemmas -/

theorem numStop_nil : numStop [] := trivial

theorem numStop_cons {c : Char} (h : isDig c = false) (l : List Char) :
    numStop (c :: l) := h

theorem parseDigitsAux_stop (acc : Nat) {r : List Char} (hr : numStop r) :
    parseDigitsAux acc r = (acc, r) := by
  cases r with
  | nil => rfl
  | cons c t =>
    have hc : isDig c = false := hr
    simp [parseDigitsAux, hc]

theorem parseDigitsAux_natChars : ∀ n acc r,
    parseDigitsAux acc (natChars n ++ r) =
      parseDigitsAux (acc * 10 ^ (natChars n).length + n) r := by
  intro n
  induction n using Nat.strong_induction_on with
  | _ n ih =>
    intro acc r
    by_cases h : n < 10
    · rw [natChars_lt10 h]
      simp [parseDigitsAux, isDig_digitChar h, digitVal_digitChar h]
    · have hn : n / 10 < n := Nat.div_lt_self (by omega) (by omega)
      have hm : n % 10 < 10 := Nat.mod_lt n (by omega)
      rw [natChars_ge10 (by omega), List.append_assoc,
        ih (n / 10) hn acc ([digitChar (n % 10)] ++ r)]
      simp only [List.singleton_append, parseDigitsAux, isDig_digitChar hm,
        digitVal_digitChar hm, if_true]
      congr 1
      simp only [List.length_append, List.length_cons, List.length_nil]
      calc (acc * 10 ^ (natChars (n / 10)).length + n / 10) * 10 + n % 10
          = acc * (10 ^ (natChars (n / 10)).length * 10) + (10 * (n / 10) + n % 10) := by
            ring
        _ = acc * 10 ^ ((natChars (n / 10)).length + (0 + 1)) + n := by
            rw [Nat.div_add_mod]
            ring

theorem parseNat_natChars (n : Nat) (r : List Char) (hr : numStop r) :
    parseNat (natChars n ++ r) = some (n, r) := by
  by_cases h0 : n = 0
  · subst h0
    have h1 : natChars 0 = ['0'] := rfl
    rw [h1]
    simp [parseNat]
  · obtain ⟨c, t, heq, hd, hz⟩ := natChars_head n (by omega)
    have h2 : parseDigitsAux 0 (natChars n ++ r) = parseDigitsAux n r := by
      rw [parseDigitsAux_natChars]
      simp
    have h3 : parseDigitsAux 0 (natChars n ++ r) = parseDigitsAux (digitVal c) (t ++ r) := by
      rw [heq]
      simp [parseDigitsAux, hd]
    rw [heq]
    simp only [List.cons_append]
    simp only [parseNat, hz, hd, if_false, if_true]
    rw [← h3, h2, parseDigitsAux_stop n hr]

theorem isDig_ne_minus {c : Char} (h : isDig c = true) : c ≠ '-' := by
  obtain ⟨h1, h2⟩ := isDig_toNat h
  apply char_ne_of_toNat_ne
  intro hx
  rw [show Char.toNat '-' = 45 from rfl] at hx
  omega

theorem parseNumber_intChars (n : Int) (r : List Char) (hr : numStop r) :
    parseNumber (intChars n ++ r) = some (n, r) := by
  by_cases hneg : n < 0
  · rw [show intChars n = '-' :: natChars n.natAbs from by simp [intChars, hneg],
      List.cons_append,
      show parseNumber ('-' :: (natChars n.natAbs ++ r))
        = (parseNat (natChars n.natAbs ++ r)).map (fun p => (-(p.1 : Int), p.2)) from rfl,
      parseNat_natChars n.natAbs r hr]
    show some (-(n.natAbs : Int), r) = some (n, r)
    congr 2
    omega
  · rw [show intChars n = natChars n.toNat from by simp [intChars, hneg]]
    cases hnc : natChars n.toNat with
    | nil => exact absurd hnc (natChars_ne_nil n.toNat)
    | cons c t =>
      have hd : isDig c = true := by
        apply natChars_all_digits n.toNat
        rw [hnc]
        exact List.mem_cons_self c t
      rw [List.cons_append,
        show parseNumber (c :: (t ++ r))
          = if c = '-' then (parseNat (t ++ r)).map (fun p => (-(p.1 : Int), p.2))
            else (parseNat (c :: (t ++ r))).map (fun p => ((p.1 : Int), p.2)) from rfl,
        if_neg (isDig_ne_minus hd),
        show c :: (t ++ r) = (c :: t) ++ r from rfl, ← hnc,
        parseNat_natChars n.toNat r hr]
      show some ((n.toNat : Int), r) = some (n, r)
      congr 2
      omega

theorem intChars_head (n : Int) :
    ∃ c t, intChars n = c :: t ∧ (c = '-' ∨ isDig c = true) := by
  by_cases hneg : n < 0
  · exact ⟨'-', natChars n.natAbs, by simp [intChars, hneg], Or.inl rfl⟩
  · cases hnc : natChars n.toNat with
    | nil => exact absurd hnc (natChars_ne_nil n.toNat)
    | cons c t =>
      refine ⟨c, t, by simp [intChars, hneg, hnc], Or.inr ?_⟩
      apply natChars_all_digits n.toNat
      rw [hnc]
      exact List.mem_cons_self c t

/-! ### String literal parsing lemmas -/

theorem hexVal_hexDigitChar {m : Nat} (h : m < 16) : hexVal (hexDigitChar m) = some m := by
  interval_cases m <;> rfl

theorem parseStringBody_escList : ∀ s r, parseStringBody (escList s ++ ('"' :: r)) = some (s, r) := by
  intro s
  induction s with
  | nil => intro r; rfl
  | cons c t ih =>
    intro r
    show parseStringBody ((escChar c ++ escList t) ++ ('"' :: r)) = some (c :: t, r)
    rw [List.append_assoc]
    by_cases h1 : c = '\\'
    · subst h1
      rw [show escChar '\\' = ['\\', '\\'] from rfl]
      simp only [List.cons_append, List.nil_append, List.append_eq, parseStringBody, consRes, ih r,
        Option.map_some']
    · by_cases h2 : c = '"'
      · subst h2
        rw [show escChar '"' = ['\\', '"'] from rfl]
        simp only [List.cons_append, List.nil_append, List.append_eq, parseStringBody, consRes, ih r,
          Option.map_some']
      · by_cases h3 : c = '\n'
        · subst h3
          rw [show escChar '\n' = ['\\', 'n'] from rfl]
          simp only [List.cons_append, List.nil_append, List.append_eq, parseStringBody, consRes, ih r,
            Option.map_some']
        · by_cases h4 : c = '\t'
          · subst h4
            rw [show escChar '\t' = ['\\', 't'] from rfl]
            simp only [List.cons_append, List.nil_append, List.append_eq, parseStringBody, consRes, ih r,
              Option.map_some']
          · by_cases h5 : c = '\r'
            · subst h5
              rw [show escChar '\r' = ['\\', 'r'] from rfl]
              simp only [List.cons_append, List.nil_append, List.append_eq, parseStringBody, consRes,
                ih r, Option.map_some']
            · by_cases h6 : c.toNat = 8
              · have hc8 : Char.ofNat 8 = c := by
                  rw [← h6]
                  exact Char.ofNat_toNat c
                rw [show escChar c = ['\\', 'b'] from by
                  simp [escChar, h1, h2, h3, h4, h5, h6]]
                simp only [List.cons_append, List.nil_append, List.append_eq, parseStringBody, consRes,
                  ih r, Option.map_some', hc8]
              · by_cases h7 : c.toNat = 12
                · have hc12 : Char.ofNat 12 = c := by
                    rw [← h7]
                    exact Char.ofNat_toNat c
                  rw [show escChar c = ['\\', 'f'] from by
                    simp [escChar, h1, h2, h3, h4, h5, h6, h7]]
                  simp only [List.cons_append, List.nil_append, List.append_eq, parseStringBody, consRes,
                    ih r, Option.map_some', hc12]
                · by_cases h8 : c.toNat < 32
                  · have hdiv : c.toNat / 16 < 16 := by omega
                    have hmod : c.toNat % 16 < 16 := by omega
                    have hcode :
                        ((((0 : Nat) * 16 + 0) * 16 + c.toNat / 16) * 16 + c.toNat % 16)
                          = c.toNat := by omega
                    rw [show escChar c
                        = ['\\', 'u', '0', '0', hexDigitChar (c.toNat / 16),
                            hexDigitChar (c.toNat % 16)] from by
                      simp [escChar, h1, h2, h3, h4, h5, h6, h7, h8]]
                    simp only [List.cons_append, List.nil_append, List.append_eq, parseStringBody]
                    rw [show hexVal '0' = some 0 from rfl,
                      hexVal_hexDigitChar hdiv, hexVal_hexDigitChar hmod]
                    simp only [consRes, ih r, Option.map_some', hcode,
                      Char.ofNat_toNat c]
                  · rw [show escChar c = [c] from by
                      simp [escChar, h1, h2, h3, h4, h5, h6, h7, h8]]
                    simp only [List.cons_append, List.nil_append]
                    rw [show parseStringBody (c :: (escList t ++ '"' :: r))
                        = consRes c (parseStringBody (escList t ++ '"' :: r)) from by
                      simp [parseStringBody, h1, h2]]
                    simp only [consRes, ih r, Option.map_some', List.append_eq, List.nil_append]

/-! ### Head characters of serialized values -/

theorem num_head_facts {c : Char} (hc : c = '-' ∨ isDig c = true) :
    isWsChar c = false ∧ c ≠ '{' ∧ c ≠ '[' ∧ c ≠ '"' ∧ c ≠ 'n' ∧ c ≠ 't' ∧ c ≠ 'f'
      ∧ c ≠ ']' ∧ (c = '-' || isDig c) = true := by
  rcases hc with h | h
  · subst h
    refine ⟨rfl, ?_, ?_, ?_, ?_, ?_, ?_, ?_, rfl⟩ <;> decide
  · obtain ⟨h1, h2⟩ := isDig_toNat h
    refine ⟨isWsChar_false_of_toNat ⟨by omega, by omega, by omega, by omega⟩,
      ?_, ?_, ?_, ?_, ?_, ?_, ?_, by simp [h]⟩
    · exact char_ne_of_toNat_ne (by rw [show Char.toNat '{' = 123 from rfl]; omega)
    · exact char_ne_of_toNat_ne (by rw [show Char.toNat '[' = 91 from rfl]; omega)
    · exact char_ne_of_toNat_ne (by rw [show Char.toNat '"' = 34 from rfl]; omega)
    · exact char_ne_of_toNat_ne (by rw [show Char.toNat 'n' = 110 from rfl]; omega)
    · exact char_ne_of_toNat_ne (by rw [show Char.toNat 't' = 116 from rfl]; omega)
    · exact char_ne_of_toNat_ne (by rw [show Char.toNat 'f' = 102 from rfl]; omega)
    · exact char_ne_of_toNat_ne (by rw [show Char.toNat ']' = 93 from rfl]; omega)

theorem prettyL_head (j : Json) (lvl : Nat) :
    ∃ c t, prettyL j lvl = c :: t ∧ isWsChar c = false ∧ c ≠ ']' := by
  cases j with
  | null => exact ⟨'n', _, rfl, by decide, by decide⟩
  | bool b =>
    cases b with
    | true => exact ⟨'t', _, rfl, by decide, by decide⟩
    | false => exact ⟨'f', _, rfl, by decide, by decide⟩
  | num n =>
    obtain ⟨c, t, heq, hc⟩ := intChars_head n
    obtain ⟨hw, _, _, _, _, _, _, hbr, _⟩ := num_head_facts hc
    exact ⟨c, t, by rw [show prettyL (Json.num n) lvl = intChars n from rfl, heq], hw, hbr⟩
  | str s => exact ⟨'"', _, rfl, by decide, by decide⟩
  | arr xs =>
    cases xs with
    | nil => exact ⟨'[', _, rfl, by decide, by decide⟩
    | cons x t => exact ⟨'[', _, rfl, by decide, by decide⟩
  | obj kvs =>
    cases kvs with
    | nil => exact ⟨'{', _, rfl, by decide, by decide⟩
    | cons p t => exact ⟨'{', _, rfl, by decide, by decide⟩

theorem prettyItemsCore_cons (x : Json) (xs : List Json) (lvl : Nat) :
    prettyItemsCore (x :: xs) lvl
      = prettyL x lvl ++ (match xs with
        | [] => []
        | y :: t => ',' :: '\n' :: (indentChars lvl ++ prettyItemsCore (y :: t) lvl)) := by
  cases xs <;> simp [prettyItemsCore]

theorem prettyPairsCore_cons (k : String) (v : Json) (ps : List (String × Json)) (lvl : Nat) :
    prettyPairsCore ((k, v) :: ps) lvl
      = strLit k ++ ':' :: ' ' :: (prettyL v lvl ++ (match ps with
        | [] => []
        | q :: t => ',' :: '\n' :: (indentChars lvl ++ prettyPairsCore (q :: t) lvl))) := by
  cases ps <;> simp [prettyPairsCore]

/-! ### Size bounds -/

theorem sizeJ_pos (j : Json) : 1 ≤ sizeJ j := by
  cases j <;> simp [sizeJ] <;> omega

theorem size_le_len_aux : ∀ n : Nat,
    (∀ j, sizeJ j ≤ n → ∀ lvl, sizeJ j ≤ (prettyL j lvl).length) ∧
    (∀ xs, sizeItems xs ≤ n → ∀ lvl, sizeItems xs ≤ (prettyItemsCore xs lvl).length + 1) ∧
    (∀ ps, sizePairs ps ≤ n → ∀ lvl, sizePairs ps ≤ (prettyPairsCore ps lvl).length + 1) := by
  intro n
  induction n with
  | zero =>
    refine ⟨fun j h => absurd h (by have := sizeJ_pos j; omega), ?_, ?_⟩
    · intro xs h lvl
      cases xs with
      | nil => simp [sizeItems]
      | cons x t =>
        have := sizeJ_pos x
        have h1 : sizeItems (x :: t) = 1 + sizeJ x + sizeItems t := rfl
        omega
    · intro ps h lvl
      cases ps with
      | nil => simp [sizePairs]
      | cons p t =>
        obtain ⟨k, v⟩ := p
        have := sizeJ_pos v
        have h1 : sizePairs ((k, v) :: t) = 1 + sizeJ v + sizePairs t := rfl
        omega
  | succ n ih =>
    obtain ⟨ih1, ih2, ih3⟩ := ih
    refine ⟨?_, ?_, ?_⟩
    · intro j h lvl
      cases j with
      | null => simp [sizeJ, prettyL]
      | bool b => cases b <;> simp [sizeJ, prettyL]
      | num m =>
        obtain ⟨c, t, heq, _⟩ := intChars_head m
        rw [show prettyL (Json.num m) lvl = intChars m from rfl, heq]
        simp [sizeJ]
      | str s =>
        rw [show prettyL (Json.str s) lvl = strLit s from rfl]
        simp [sizeJ, strLit]
      | arr xs =>
        cases xs with
        | nil => simp [sizeJ, sizeItems, prettyL]
        | cons x t =>
          have hsub : sizeItems (x :: t) ≤ n := by
            have h1 : sizeJ (Json.arr (x :: t)) = 2 + sizeItems (x :: t) := rfl
            omega
          have h2 := ih2 (x :: t) hsub (lvl + 1)
          rw [show prettyL (Json.arr (x :: t)) lvl
            = '[' :: '\n' :: (indentChars (lvl + 1) ++ prettyItemsCore (x :: t) (lvl + 1)
              ++ '\n' :: (indentChars lvl ++ [']'])) from rfl]
          rw [show sizeJ (Json.arr (x :: t)) = 2 + sizeItems (x :: t) from rfl]
          simp [List.length_append]
          omega
      | obj kvs =>
        cases kvs with
        | nil => simp [sizeJ, sizePairs, prettyL]
        | cons p t =>
          obtain ⟨k, v⟩ := p
          have hsub : sizePairs ((k, v) :: t) ≤ n := by
            have h1 : sizeJ (Json.obj ((k, v) :: t)) = 2 + sizePairs ((k, v) :: t) := rfl
            omega
          have h2 := ih3 ((k, v) :: t) hsub (lvl + 1)
          rw [show prettyL (Json.obj ((k, v) :: t)) lvl
            = '{' :: '\n' :: (indentChars (lvl + 1) ++ prettyPairsCore ((k, v) :: t) (lvl + 1)
              ++ '\n' :: (indentChars lvl ++ ['}'])) from rfl]
          rw [show sizeJ (Json.obj ((k, v) :: t)) = 2 + sizePairs ((k, v) :: t) from rfl]
          simp [List.length_append]
          omega
    · intro xs h lvl
      cases xs with
      | nil => simp [sizeItems]
      | cons x t =>
        have hx : sizeJ x ≤ n := by
          have h1 : sizeItems (x :: t) = 1 + sizeJ x + sizeItems t := rfl
          have := sizeJ_pos x
          omega
        have hx2 := ih1 x hx lvl
        cases t with
        | nil =>
          rw [show prettyItemsCore [x] lvl = prettyL x lvl from rfl,
            show sizeItems [x] = 1 + sizeJ x + sizeItems [] from rfl]
          simp [sizeItems]
          omega
        | cons y t2 =>
          have hrest : sizeItems (y :: t2) ≤ n := by
            have h1 : sizeItems (x :: y :: t2) = 1 + sizeJ x + sizeItems (y :: t2) := rfl
            have := sizeJ_pos x
            omega
          have h2 := ih2 (y :: t2) hrest lvl
          rw [show prettyItemsCore (x :: y :: t2) lvl
            = prettyL x lvl ++ ',' :: '\n' :: (indentChars lvl ++ prettyItemsCore (y :: t2) lvl)
            from rfl,
            show sizeItems (x :: y :: t2) = 1 + sizeJ x + sizeItems (y :: t2) from rfl]
          simp [List.length_append]
          omega
    · intro ps h lvl
      cases ps with
      | nil => simp [sizePairs]
      | cons p t =>
        obtain ⟨k, v⟩ := p
        have hv : sizeJ v ≤ n := by
          have h1 : sizePairs ((k, v) :: t) = 1 + sizeJ v + sizePairs t := rfl
          have := sizeJ_pos v
          omega
        have hv2 := ih1 v hv lvl
        cases t with
        | nil =>
          rw [show prettyPairsCore [(k, v)] lvl = strLit k ++ ':' :: ' ' :: prettyL v lvl
            from rfl,
            show sizePairs [(k, v)] = 1 + sizeJ v + sizePairs [] from rfl]
          simp [sizePairs, List.length_append]
          omega
        | cons q t2 =>
          have hrest : sizePairs (q :: t2) ≤ n := by
            have h1 : sizePairs ((k, v) :: q :: t2) = 1 + sizeJ v + sizePairs (q :: t2) := rfl
            have := sizeJ_pos v
            omega
          have h2 := ih3 (q :: t2) hrest lvl
          rw [show prettyPairsCore ((k, v) :: q :: t2) lvl
            = strLit k ++ ':' :: ' ' :: prettyL v lvl
              ++ ',' :: '\n' :: (indentChars lvl ++ prettyPairsCore (q :: t2) lvl) from rfl,
            show sizePairs ((k, v) :: q :: t2) = 1 + sizeJ v + sizePairs (q :: t2) from rfl]
          simp [List.length_append]
          omega

theorem sizeJ_le_len (j : Json) (lvl : Nat) : sizeJ j ≤ (prettyL j lvl).length :=
  (size_le_len_aux (sizeJ j)).1 j le_rfl lvl

/-! ### Dispatch lemmas for the value parser -/

theorem skipWs_newline (l : List Char) : skipWs ('\n' :: l) = skipWs l := by
  show (if isWsChar '\n' = true then skipWs l else '\n' :: l) = skipWs l
  rw [if_pos (by decide)]

theorem parseValue_null (f : Nat) (cs rest : List Char)
    (h : skipWs cs = 'n' :: ('u' :: 'l' :: 'l' :: rest)) :
    parseValue (f + 1) cs = some (.null, rest) := by
  simp only [parseValue, h]
  simp

theorem parseValue_true (f : Nat) (cs rest : List Char)
    (h : skipWs cs = 't' :: ('r' :: 'u' :: 'e' :: rest)) :
    parseValue (f + 1) cs = some (.bool true, rest) := by
  simp only [parseValue, h]
  simp

theorem parseValue_false (f : Nat) (cs rest : List Char)
    (h : skipWs cs = 'f' :: ('a' :: 'l' :: 's' :: 'e' :: rest)) :
    parseValue (f + 1) cs = some (.bool false, rest) := by
  simp only [parseValue, h]
  simp

theorem parseValue_str (f : Nat) (cs t : List Char) (h : skipWs cs = '"' :: t) :
    parseValue (f + 1) cs
      = (parseStringBody t).map fun p => (.str (String.mk p.1), p.2) := by
  simp only [parseValue, h]
  simp

theorem parseValue_dispatch_num (f : Nat) (cs : List Char) (c : Char) (t : List Char)
    (h : skipWs cs = c :: t) (h1 : c ≠ '{') (h2 : c ≠ '[') (h3 : c ≠ '"') (h4 : c ≠ 'n')
    (h5 : c ≠ 't') (h6 : c ≠ 'f') (h7 : (c = '-' || isDig c) = true) :
    parseValue (f + 1) cs = (parseNumber (c :: t)).map fun p => (.num p.1, p.2) := by
  simp only [parseValue, h]
  simp [h1, h2, h3, h4, h5, h6, h7]

theorem parseValue_arr (f : Nat) (cs t : List Char) (h : skipWs cs = '[' :: t) :
    parseValue (f + 1) cs
      = (match skipWs t with
        | [] => none
        | c2 :: t2 =>
          if c2 = ']' then some (.arr [], t2)
          else (parseItems f (c2 :: t2)).map fun p => (.arr p.1, p.2)) := by
  simp only [parseValue, h]
  simp

theorem parseValue_obj (f : Nat) (cs t : List Char) (h : skipWs cs = '{' :: t) :
    parseValue (f + 1) cs
      = (match skipWs t with
        | [] => none
        | c2 :: t2 =>
          if c2 = '}' then some (.obj [], t2)
          else (parseMembers f [] (c2 :: t2)).map fun p => (.obj p.1, p.2)) := by
  simp only [parseValue, h]
  simp

theorem prettyItemsCore_head (x : Json) (xs : List Json) (lvl : Nat) :
    ∃ c u, prettyItemsCore (x :: xs) lvl = c :: u ∧ isWsChar c = false ∧ c ≠ ']' := by
  obtain ⟨c, t, hx, hw, hbr⟩ := prettyL_head x lvl
  cases xs with
  | nil =>
    exact ⟨c, t, by rw [show prettyItemsCore [x] lvl = prettyL x lvl from rfl, hx], hw, hbr⟩
  | cons y t2 =>
    refine ⟨c, t ++ ',' :: '\n' :: (indentChars lvl ++ prettyItemsCore (y :: t2) lvl), ?_,
      hw, hbr⟩
    rw [show prettyItemsCore (x :: y :: t2) lvl
        = prettyL x lvl ++ ',' :: '\n' :: (indentChars lvl ++ prettyItemsCore (y :: t2) lvl)
      from rfl, hx]
    simp

theorem prettyPairsCore_head (k : String) (v : Json) (ps : List (String × Json)) (lvl : Nat) :
    ∃ u, prettyPairsCore ((k, v) :: ps) lvl = '"' :: u := by
  cases ps with
  | nil =>
    refine ⟨escList k.data ++ ('"' :: (':' :: ' ' :: prettyL v lvl)), ?_⟩
    rw [show prettyPairsCore [(k, v)] lvl = strLit k ++ ':' :: ' ' :: prettyL v lvl from rfl,
      strLit]
    simp
  | cons q t =>
    refine ⟨escList k.data ++ ('"' :: (':' :: ' ' :: (prettyL v lvl
      ++ ',' :: '\n' :: (indentChars lvl ++ prettyPairsCore (q :: t) lvl)))), ?_⟩
    rw [show prettyPairsCore ((k, v) :: q :: t) lvl
        = strLit k ++ ':' :: ' ' :: prettyL v lvl
          ++ ',' :: '\n' :: (indentChars lvl ++ prettyPairsCore (q :: t) lvl) from rfl,
      strLit]
    simp

theorem fresh_step {acc : List (String × Json)} {k : String} {v : Json}
    {ps : List (String × Json)}
    (hfresh : ∀ q ∈ (k, v) :: ps, alookup acc q.1 = none)
    (hnm : strMem k (ps.map Prod.fst) = false) :
    ∀ q ∈ ps, alookup (acc ++ [(k, v)]) q.1 = none := by
  intro q hq
  rw [alookup_append]
  have hkq : k ≠ q.1 := by
    intro he
    have hm : strMem k (ps.map Prod.fst) = true := by
      apply strMem_of_mem
      exact he ▸ List.mem_map_of_mem Prod.fst hq
    rw [hm] at hnm
    cases hnm
  simp only [hfresh q (List.mem_cons_of_mem _ hq)]
  simp [alookup, hkq]

/-! ### The round trip: parsing recovers every serialized value -/

theorem parse_print_aux : ∀ f : Nat,
    (∀ j lvl ws0 rest, wfJ j = true → sizeJ j ≤ f → wsOnly ws0 → numStop rest →
      parseValue f (ws0 ++ (prettyL j lvl ++ rest)) = some (j, rest)) ∧
    (∀ x xs lvl ws0 ws1 rest, wfItems (x :: xs) = true → sizeItems (x :: xs) ≤ f →
      wsOnly ws0 → wsOnly ws1 →
      parseItems f (ws0 ++ (prettyItemsCore (x :: xs) lvl ++ '\n' :: (ws1 ++ (']' :: rest))))
        = some (x :: xs, rest)) ∧
    (∀ k v ps lvl ws0 ws1 rest acc, nodupKeys ((k, v) :: ps) = true →
      wfPairs ((k, v) :: ps) = true → sizePairs ((k, v) :: ps) ≤ f →
      wsOnly ws0 → wsOnly ws1 →
      (∀ q ∈ (k, v) :: ps, alookup acc q.1 = none) →
      parseMembers f acc
          (ws0 ++ (prettyPairsCore ((k, v) :: ps) lvl ++ '\n' :: (ws1 ++ ('}' :: rest))))
        = some (acc ++ ((k, v) :: ps), rest)) := by
  intro f
  induction f with
  | zero =>
    refine ⟨?_, ?_, ?_⟩
    · intro j lvl ws0 rest hwf hsz hws hstop
      have := sizeJ_pos j
      omega
    · intro x xs lvl ws0 ws1 rest hwf hsz hws0 hws1
      have := sizeJ_pos x
      have h1 : sizeItems (x :: xs) = 1 + sizeJ x + sizeItems xs := rfl
      omega
    · intro k v ps lvl ws0 ws1 rest acc hnd hwf hsz hws0 hws1 hfresh
      have := sizeJ_pos v
      have h1 : sizePairs ((k, v) :: ps) = 1 + sizeJ v + sizePairs ps := rfl
      omega
  | succ f ih =>
    obtain ⟨ihP, ihQ, ihR⟩ := ih
    refine ⟨?_, ?_, ?_⟩
    · -- one JSON value
      intro j lvl ws0 rest hwf hsz hws hstop
      cases j with
      | null =>
        apply parseValue_null
        rw [show prettyL Json.null lvl ++ rest = 'n' :: ('u' :: 'l' :: 'l' :: rest) from rfl,
          skipWs_ws_append hws]
        exact skipWs_not_ws (by decide) _
      | bool b =>
        cases b with
        | true =>
          apply parseValue_true
          rw [show prettyL (Json.bool true) lvl ++ rest
              = 't' :: ('r' :: 'u' :: 'e' :: rest) from rfl,
            skipWs_ws_append hws]
          exact skipWs_not_ws (by decide) _
        | false =>
          apply parseValue_false
          rw [show prettyL (Json.bool false) lvl ++ rest
              = 'f' :: ('a' :: 'l' :: 's' :: 'e' :: rest) from rfl,
            skipWs_ws_append hws]
          exact skipWs_not_ws (by decide) _
      | num n =>
        obtain ⟨c, t, heq, hcs⟩ := intChars_head n
        obtain ⟨hw, hne1, hne2, hne3, hne4, hne5, hne6, _, hceq⟩ := num_head_facts hcs
        have h1 : skipWs (ws0 ++ (prettyL (Json.num n) lvl ++ rest)) = c :: (t ++ rest) := by
          rw [show prettyL (Json.num n) lvl = intChars n from rfl, heq, List.cons_append,
            skipWs_ws_append hws, skipWs_not_ws hw]
        rw [parseValue_dispatch_num f _ c (t ++ rest) h1 hne1 hne2 hne3 hne4 hne5 hne6 hceq,
          show c :: (t ++ rest) = (c :: t) ++ rest from rfl, ← heq,
          parseNumber_intChars n rest hstop]
        rfl
      | str s =>
        have h1 : skipWs (ws0 ++ (prettyL (Json.str s) lvl ++ rest))
            = '"' :: (escList s.data ++ ('"' :: rest)) := by
          rw [show prettyL (Json.str s) lvl ++ rest
              = '"' :: (escList s.data ++ ('"' :: rest)) from by
            rw [show prettyL (Json.str s) lvl = strLit s from rfl, strLit]
            simp,
            skipWs_ws_append hws]
          exact skipWs_not_ws (by decide) _
        rw [parseValue_str f _ _ h1, parseStringBody_escList s.data rest]
        rfl
      | arr xs =>
        cases xs with
        | nil =>
          have h1 : skipWs (ws0 ++ (prettyL (Json.arr []) lvl ++ rest))
              = '[' :: (']' :: rest) := by
            rw [show prettyL (Json.arr []) lvl ++ rest = '[' :: (']' :: rest) from rfl,
              skipWs_ws_append hws]
            exact skipWs_not_ws (by decide) _
          rw [parseValue_arr f _ _ h1, skipWs_not_ws (by decide)]
          simp
        | cons x xs =>
          obtain ⟨c2, u, hcl, hxw, hxbr⟩ := prettyItemsCore_head x xs (lvl + 1)
          have hwf2 : wfItems (x :: xs) = true := hwf
          have hsz2 : sizeItems (x :: xs) ≤ f := by
            have h2 : sizeJ (Json.arr (x :: xs)) = 2 + sizeItems (x :: xs) := rfl
            omega
          have h1 : skipWs (ws0 ++ (prettyL (Json.arr (x :: xs)) lvl ++ rest))
              = '[' :: ('\n' :: (indentChars (lvl + 1) ++ (prettyItemsCore (x :: xs) (lvl + 1)
                  ++ '\n' :: (indentChars lvl ++ (']' :: rest))))) := by
            rw [show prettyL (Json.arr (x :: xs)) lvl ++ rest
                = '[' :: ('\n' :: (indentChars (lvl + 1) ++ (prettyItemsCore (x :: xs) (lvl + 1)
                    ++ '\n' :: (indentChars lvl ++ (']' :: rest))))) from by
              rw [show prettyL (Json.arr (x :: xs)) lvl
                  = '[' :: '\n' :: (indentChars (lvl + 1) ++ prettyItemsCore (x :: xs) (lvl + 1)
                    ++ '\n' :: (indentChars lvl ++ [']'])) from rfl]
              simp,
              skipWs_ws_append hws]
            exact skipWs_not_ws (by decide) _
          rw [parseValue_arr f _ _ h1]
          have h2 : skipWs ('\n' :: (indentChars (lvl + 1) ++ (prettyItemsCore (x :: xs) (lvl + 1)
              ++ '\n' :: (indentChars lvl ++ (']' :: rest)))))
              = c2 :: (u ++ '\n' :: (indentChars lvl ++ (']' :: rest))) := by
            rw [skipWs_newline, skipWs_ws_append (wsOnly_indent (lvl + 1)), hcl,
              List.cons_append, skipWs_not_ws hxw]
          simp only [h2]
          rw [if_neg hxbr]
          have h3 : c2 :: (u ++ '\n' :: (indentChars lvl ++ (']' :: rest)))
              = [] ++ (prettyItemsCore (x :: xs) (lvl + 1)
                  ++ '\n' :: (indentChars lvl ++ (']' :: rest))) := by
            rw [hcl]
            simp
          rw [h3, ihQ x xs (lvl + 1) [] (indentChars lvl) rest hwf2 hsz2 wsOnly_nil
            (wsOnly_indent lvl)]
          rfl
      | obj kvs =>
        cases kvs with
        | nil =>
          have h1 : skipWs (ws0 ++ (prettyL (Json.obj []) lvl ++ rest))
              = '{' :: ('}' :: rest) := by
            rw [show prettyL (Json.obj []) lvl ++ rest = '{' :: ('}' :: rest) from rfl,
              skipWs_ws_append hws]
            exact skipWs_not_ws (by decide) _
          rw [parseValue_obj f _ _ h1, skipWs_not_ws (by decide)]
          simp
        | cons p ps =>
          obtain ⟨k, v⟩ := p
          obtain ⟨u, hcl⟩ := prettyPairsCore_head k v ps (lvl + 1)
          have hnd : nodupKeys ((k, v) :: ps) = true := by
            have hx : wfJ (Json.obj ((k, v) :: ps))
                = (nodupKeys ((k, v) :: ps) && wfPairs ((k, v) :: ps)) := rfl
            rw [hx, Bool.and_eq_true] at hwf
            exact hwf.1
          have hwfp : wfPairs ((k, v) :: ps) = true := by
            have hx : wfJ (Json.obj ((k, v) :: ps))
                = (nodupKeys ((k, v) :: ps) && wfPairs ((k, v) :: ps)) := rfl
            rw [hx, Bool.and_eq_true] at hwf
            exact hwf.2
          have hsz2 : sizePairs ((k, v) :: ps) ≤ f := by
            have h2 : sizeJ (Json.obj ((k, v) :: ps)) = 2 + sizePairs ((k, v) :: ps) := rfl
            omega
          have h1 : skipWs (ws0 ++ (prettyL (Json.obj ((k, v) :: ps)) lvl ++ rest))
              = '{' :: ('\n' :: (indentChars (lvl + 1)
                  ++ (prettyPairsCore ((k, v) :: ps) (lvl + 1)
                  ++ '\n' :: (indentChars lvl ++ ('}' :: rest))))) := by
            rw [show prettyL (Json.obj ((k, v) :: ps)) lvl ++ rest
                = '{' :: ('\n' :: (indentChars (lvl + 1)
                    ++ (prettyPairsCore ((k, v) :: ps) (lvl + 1)
                    ++ '\n' :: (indentChars lvl ++ ('}' :: rest))))) from by
              rw [show prettyL (Json.obj ((k, v) :: ps)) lvl
                  = '{' :: '\n' :: (indentChars (lvl + 1)
                    ++ prettyPairsCore ((k, v) :: ps) (lvl + 1)
                    ++ '\n' :: (indentChars lvl ++ ['}'])) from rfl]
              simp,
              skipWs_ws_append hws]
            exact skipWs_not_ws (by decide) _
          rw [parseValue_obj f _ _ h1]
          have h2 : skipWs ('\n' :: (indentChars (lvl + 1)
              ++ (prettyPairsCore ((k, v) :: ps) (lvl + 1)
              ++ '\n' :: (indentChars lvl ++ ('}' :: rest)))))
              = '"' :: (u ++ '\n' :: (indentChars lvl ++ ('}' :: rest))) := by
            rw [skipWs_newline, skipWs_ws_append (wsOnly_indent (lvl + 1)), hcl,
              List.cons_append, skipWs_not_ws (by decide)]
          simp only [h2]
          rw [if_neg (by decide : ¬('"' : Char) = '}')]
          have h3 : ('"' : Char) :: (u ++ '\n' :: (indentChars lvl ++ ('}' :: rest)))
              = [] ++ (prettyPairsCore ((k, v) :: ps) (lvl + 1)
                  ++ '\n' :: (indentChars lvl ++ ('}' :: rest))) := by
            rw [hcl]
            simp
          rw [h3, ihR k v ps (lvl + 1) [] (indentChars lvl) rest [] hnd hwfp hsz2 wsOnly_nil
            (wsOnly_indent lvl) (fun q hq => rfl)]
          rfl
    · -- elements of an array
      intro x xs lvl ws0 ws1 rest hwf hsz hws0 hws1
      have hwfx : wfJ x = true ∧ wfItems xs = true := by
        have hx : wfItems (x :: xs) = (wfJ x && wfItems xs) := rfl
        rw [hx, Bool.and_eq_true] at hwf
        exact hwf
      have hszx : sizeJ x ≤ f := by
        have h1 : sizeItems (x :: xs) = 1 + sizeJ x + sizeItems xs := rfl
        omega
      cases xs with
      | nil =>
        have hP := ihP x lvl ws0 ('\n' :: (ws1 ++ (']' :: rest))) hwfx.1 hszx hws0
          (numStop_cons (by decide) _)
        simp only [parseItems,
          show prettyItemsCore [x] lvl = prettyL x lvl from rfl, hP]
        have h2 : skipWs ('\n' :: (ws1 ++ (']' :: rest))) = ']' :: rest := by
          rw [skipWs_newline, skipWs_ws_append hws1]
          exact skipWs_not_ws (by decide) _
        simp only [h2]
        simp
      | cons y t =>
        have hszr : sizeItems (y :: t) ≤ f := by
          have h1 : sizeItems (x :: y :: t) = 1 + sizeJ x + sizeItems (y :: t) := rfl
          omega
        have hshape : prettyItemsCore (x :: y :: t) lvl ++ '\n' :: (ws1 ++ (']' :: rest))
            = prettyL x lvl ++ (',' :: ('\n' :: (indentChars lvl
                ++ (prettyItemsCore (y :: t) lvl ++ '\n' :: (ws1 ++ (']' :: rest)))))) := by
          rw [show prettyItemsCore (x :: y :: t) lvl
              = prettyL x lvl ++ ',' :: '\n' :: (indentChars lvl ++ prettyItemsCore (y :: t) lvl)
            from rfl]
          simp
        have hP := ihP x lvl ws0 (',' :: ('\n' :: (indentChars lvl
            ++ (prettyItemsCore (y :: t) lvl ++ '\n' :: (ws1 ++ (']' :: rest))))))
          hwfx.1 hszx hws0 (numStop_cons (by decide) _)
        simp only [parseItems, hshape, hP]
        have h2 : skipWs (',' :: ('\n' :: (indentChars lvl
            ++ (prettyItemsCore (y :: t) lvl ++ '\n' :: (ws1 ++ (']' :: rest))))))
            = ',' :: ('\n' :: (indentChars lvl
            ++ (prettyItemsCore (y :: t) lvl ++ '\n' :: (ws1 ++ (']' :: rest))))) :=
          skipWs_not_ws (by decide) _
        simp only [h2]
        simp only [if_true]
        have h3 : ('\n' :: (indentChars lvl
            ++ (prettyItemsCore (y :: t) lvl ++ '\n' :: (ws1 ++ (']' :: rest)))))
            = ('\n' :: indentChars lvl)
              ++ (prettyItemsCore (y :: t) lvl ++ '\n' :: (ws1 ++ (']' :: rest))) := by
          simp
        rw [h3, ihQ y t lvl ('\n' :: indentChars lvl) ws1 rest hwfx.2 hszr
          (wsOnly_cons (by decide) (wsOnly_indent lvl)) hws1]
        rfl
    · -- members of an object
      intro k v ps lvl ws0 ws1 rest acc hnd hwf hsz hws0 hws1 hfresh
      have hndd : strMem k (ps.map Prod.fst) = false ∧ nodupKeys ps = true := by
        have hx : nodupKeys ((k, v) :: ps)
            = (!strMem k (ps.map Prod.fst) && nodupKeys ps) := rfl
        rw [hx, Bool.and_eq_true, Bool.not_eq_true'] at hnd
        exact hnd
      have hwfv : wfJ v = true ∧ wfPairs ps = true := by
        have hx : wfPairs ((k, v) :: ps) = (wfJ v && wfPairs ps) := rfl
        rw [hx, Bool.and_eq_true] at hwf
        exact hwf
      have hszv : sizeJ v ≤ f := by
        have h1 : sizePairs ((k, v) :: ps) = 1 + sizeJ v + sizePairs ps := rfl
        omega
      have hkacc : alookup acc k = none := hfresh (k, v) (List.mem_cons_self _ _)
      have hinsert : objInsert acc k v = acc ++ [(k, v)] := objInsert_fresh acc k v hkacc
      cases ps with
      | nil =>
        have hshape : prettyPairsCore [(k, v)] lvl ++ '\n' :: (ws1 ++ ('}' :: rest))
            = '"' :: (escList k.data ++ ('"' :: (':' :: ' '
                :: (prettyL v lvl ++ '\n' :: (ws1 ++ ('}' :: rest)))))) := by
          rw [show prettyPairsCore [(k, v)] lvl
              = strLit k ++ ':' :: ' ' :: prettyL v lvl from rfl, strLit]
          simp
        have h1 : skipWs (ws0 ++ (prettyPairsCore [(k, v)] lvl ++ '\n' :: (ws1 ++ ('}' :: rest))))
            = '"' :: (escList k.data ++ ('"' :: (':' :: ' '
                :: (prettyL v lvl ++ '\n' :: (ws1 ++ ('}' :: rest)))))) := by
          rw [hshape, skipWs_ws_append hws0]
          exact skipWs_not_ws (by decide) _
        simp only [parseMembers, h1]
        simp only [if_true]
        rw [parseStringBody_escList k.data _]
        have h2 : skipWs (':' :: ' ' :: (prettyL v lvl ++ '\n' :: (ws1 ++ ('}' :: rest))))
            = ':' :: (' ' :: (prettyL v lvl ++ '\n' :: (ws1 ++ ('}' :: rest)))) :=
          skipWs_not_ws (by decide) _
        simp only [h2]
        simp only [if_true]
        have hP := ihP v lvl [' '] ('\n' :: (ws1 ++ ('}' :: rest))) hwfv.1 hszv
          (wsOnly_cons (by decide) wsOnly_nil) (numStop_cons (by decide) _)
        have h3 : (' ' :: (prettyL v lvl ++ '\n' :: (ws1 ++ ('}' :: rest))))
            = [' '] ++ (prettyL v lvl ++ ('\n' :: (ws1 ++ ('}' :: rest)))) := by
          simp
        rw [h3, hP]
        have h4 : skipWs ('\n' :: (ws1 ++ ('}' :: rest))) = '}' :: rest := by
          rw [skipWs_newline, skipWs_ws_append hws1]
          exact skipWs_not_ws (by decide) _
        simp only [h4]
        simp [hinsert, show String.mk k.data = k from rfl]
      | cons q t =>
        obtain ⟨k2, v2⟩ := q
        have hszr : sizePairs ((k2, v2) :: t) ≤ f := by
          have h1 : sizePairs ((k, v) :: (k2, v2) :: t)
              = 1 + sizeJ v + sizePairs ((k2, v2) :: t) := rfl
          omega
        have hshape : prettyPairsCore ((k, v) :: (k2, v2) :: t) lvl
              ++ '\n' :: (ws1 ++ ('}' :: rest))
            = '"' :: (escList k.data ++ ('"' :: (':' :: ' '
                :: (prettyL v lvl ++ (',' :: ('\n' :: (indentChars lvl
                  ++ (prettyPairsCore ((k2, v2) :: t) lvl
                    ++ '\n' :: (ws1 ++ ('}' :: rest)))))))))) := by
          rw [show prettyPairsCore ((k, v) :: (k2, v2) :: t) lvl
              = strLit k ++ ':' :: ' ' :: prettyL v lvl
                ++ ',' :: '\n' :: (indentChars lvl ++ prettyPairsCore ((k2, v2) :: t) lvl)
            from rfl, strLit]
          simp
        have h1 : skipWs (ws0 ++ (prettyPairsCore ((k, v) :: (k2, v2) :: t) lvl
              ++ '\n' :: (ws1 ++ ('}' :: rest))))
            = '"' :: (escList k.data ++ ('"' :: (':' :: ' '
                :: (prettyL v lvl ++ (',' :: ('\n' :: (indentChars lvl
                  ++ (prettyPairsCore ((k2, v2) :: t) lvl
                    ++ '\n' :: (ws1 ++ ('}' :: rest)))))))))) := by
          rw [hshape, skipWs_ws_append hws0]
          exact skipWs_not_ws (by decide) _
        simp only [parseMembers, h1]
        simp only [if_true]
        rw [parseStringBody_escList k.data _]
        have h2 : skipWs (':' :: ' ' :: (prettyL v lvl ++ (',' :: ('\n' :: (indentChars lvl
              ++ (prettyPairsCore ((k2, v2) :: t) lvl ++ '\n' :: (ws1 ++ ('}' :: rest))))))))
            = ':' :: (' ' :: (prettyL v lvl ++ (',' :: ('\n' :: (indentChars lvl
              ++ (prettyPairsCore ((k2, v2) :: t) lvl ++ '\n' :: (ws1 ++ ('}' :: rest)))))))) :=
          skipWs_not_ws (by decide) _
        simp only [h2]
        simp only [if_true]
        have hP := ihP v lvl [' '] (',' :: ('\n' :: (indentChars lvl
            ++ (prettyPairsCore ((k2, v2) :: t) lvl ++ '\n' :: (ws1 ++ ('}' :: rest))))))
          hwfv.1 hszv (wsOnly_cons (by decide) wsOnly_nil) (numStop_cons (by decide) _)
        have h3 : (' ' :: (prettyL v lvl ++ (',' :: ('\n' :: (indentChars lvl
              ++ (prettyPairsCore ((k2, v2) :: t) lvl ++ '\n' :: (ws1 ++ ('}' :: rest))))))))
            = [' '] ++ (prettyL v lvl ++ (',' :: ('\n' :: (indentChars lvl
              ++ (prettyPairsCore ((k2, v2) :: t) lvl ++ '\n' :: (ws1 ++ ('}' :: rest))))))) := by
          simp
        rw [h3, hP]
        have h4 : skipWs (',' :: ('\n' :: (indentChars lvl
              ++ (prettyPairsCore ((k2, v2) :: t) lvl ++ '\n' :: (ws1 ++ ('}' :: rest))))))
            = ',' :: ('\n' :: (indentChars lvl
              ++ (prettyPairsCore ((k2, v2) :: t) lvl ++ '\n' :: (ws1 ++ ('}' :: rest))))) :=
          skipWs_not_ws (by decide) _
        simp only [h4]
        simp only [if_true]
        rw [show String.mk k.data = k from rfl, hinsert]
        have h5 : ('\n' :: (indentChars lvl
              ++ (prettyPairsCore ((k2, v2) :: t) lvl ++ '\n' :: (ws1 ++ ('}' :: rest)))))
            = ('\n' :: indentChars lvl)
              ++ (prettyPairsCore ((k2, v2) :: t) lvl ++ '\n' :: (ws1 ++ ('}' :: rest))) := by
          simp
        rw [h5, ihR k2 v2 t lvl ('\n' :: indentChars lvl) ws1 rest (acc ++ [(k, v)])
          hndd.2 hwfv.2 hszr (wsOnly_cons (by decide) (wsOnly_indent lvl)) hws1
          (fresh_step hfresh hndd.1)]
        simp

/-- Parsing the text that serialization produces, followed by the newline
the script appends, recovers the original value, for every value whose
objects have pairwise distinct keys (as every value decoded from JSON
does). -/
theorem jsonLoads_jsonDump (j : Json) (h : wfJ j = true) :
    jsonLoads (jsonDump j ++ "\n") = some j := by
  have hdata : (jsonDump j ++ "\n").data = prettyL j 0 ++ ['\n'] := rfl
  show parseTop ((jsonDump j ++ "\n").data) = some j
  rw [hdata]
  have hfuel : sizeJ j ≤ (prettyL j 0 ++ ['\n']).length + 1 := by
    have h1 := sizeJ_le_len j 0
    simp [List.length_append]
    omega
  have hP := (parse_print_aux ((prettyL j 0 ++ ['\n']).length + 1)).1 j 0 [] ['\n'] h hfuel
    wsOnly_nil (numStop_cons (by decide) _)
  simp only [List.nil_append] at hP
  simp only [parseTop, hP]
  simp [show skipWs ['\n'] = [] from rfl]

/-! ### String and path lemmas -/

theorem strData_append (a b : String) : (a ++ b).data = a.data ++ b.data := by
  cases a
  cases b
  rfl

theorem str_ne_empty {s : String} (h : s.data ≠ []) : s ≠ "" := by
  intro he
  rw [he] at h
  exact h rfl

theorem ospJoin_ne_empty {a b : String} (hb : b.data ≠ []) : ospJoin a b ≠ "" := by
  unfold ospJoin
  split_ifs with h1 h2
  · exact str_ne_empty hb
  · apply str_ne_empty
    rw [strData_append]
    intro hx
    exact hb (List.append_eq_nil.mp hx).2
  · apply str_ne_empty
    rw [strData_append]
    intro hx
    exact hb (List.append_eq_nil.mp hx).2

/-! ### Scene writing lemmas -/

theorem hasId_isObj {sc : Json} (h : hasId sc = true) : sc.isObj = true := by
  cases sc <;> first | rfl | (simp [hasId] at h)

theorem write_scene_file_skip (fs : FS) (dir : String) (sc : Json)
    (hobj : sc.isObj = true) (hid : hasId sc = false) :
    write_scene_file fs dir sc = .ok ("", fs) := by
  cases sc with
  | obj kvs =>
    cases hl : alookup kvs "scene_id" with
    | none => simp [write_scene_file, hl]
    | some sid =>
      have htr : sid.truthy = false := by
        simp [hasId, hl] at hid
        exact hid
      simp [write_scene_file, hl, htr]
  | null => simp [Json.isObj] at hobj
  | bool b => simp [Json.isObj] at hobj
  | num n => simp [Json.isObj] at hobj
  | str s => simp [Json.isObj] at hobj
  | arr xs => simp [Json.isObj] at hobj

theorem write_scene_file_write (fs : FS) (dir : String) (sc : Json)
    (hid : hasId sc = true) :
    write_scene_file fs dir sc
      = .ok (scenePath dir sc,
          fsWrite (makedirs fs dir) (scenePath dir sc) (sceneContent sc)) := by
  cases sc with
  | obj kvs =>
    cases hl : alookup kvs "scene_id" with
    | none => simp [hasId, hl] at hid
    | some sid =>
      have htr : sid.truthy = true := by
        simp [hasId, hl] at hid
        exact hid
      have hpath : scenePath dir (Json.obj kvs) = ospJoin dir (sid.pyStr ++ ".json") := by
        rw [show scenePath dir (Json.obj kvs)
            = (match alookup kvs "scene_id" with
              | some sid => ospJoin dir (sid.pyStr ++ ".json")
              | none => "") from rfl, hl]
      have hw : write_scene_file fs dir (Json.obj kvs)
          = (match alookup kvs "scene_id" with
            | none => .ok ("", fs)
            | some sid =>
              if sid.truthy then
                .ok (ospJoin dir (sid.pyStr ++ ".json"),
                  fsWrite (makedirs fs dir) (ospJoin dir (sid.pyStr ++ ".json"))
                    (sceneContent (Json.obj kvs)))
              else .ok ("", fs)) := rfl
      rw [hw, hl, hpath]
      simp only [htr, if_true]
  | null => simp [hasId] at hid
  | bool b => simp [hasId] at hid
  | num n => simp [hasId] at hid
  | str s => simp [hasId] at hid
  | arr xs => simp [hasId] at hid

theorem write_scene_file_nonobj (fs : FS) (dir : String) {sc : Json}
    (h : sc.isObj = false) :
    write_scene_file fs dir sc = .error .attributeError := by
  cases sc <;> first | rfl | (simp [Json.isObj] at h)

theorem write_scene_file_obj_ok (fs : FS) (dir : String) {sc : Json}
    (h : sc.isObj = true) :
    ∃ p fs2, write_scene_file fs dir sc = .ok (p, fs2) := by
  cases sc with
  | obj kvs =>
    cases hl : alookup kvs "scene_id" with
    | none => exact ⟨"", fs, by simp [write_scene_file, hl]⟩
    | some sid =>
      by_cases ht : sid.truthy = true
      · refine ⟨ospJoin dir (sid.pyStr ++ ".json"),
          fsWrite (makedirs fs dir) (ospJoin dir (sid.pyStr ++ ".json"))
            (sceneContent (Json.obj kvs)), ?_⟩
        have hw : write_scene_file fs dir (Json.obj kvs)
            = (match alookup kvs "scene_id" with
              | none => .ok ("", fs)
              | some sid =>
                if sid.truthy then
                  .ok (ospJoin dir (sid.pyStr ++ ".json"),
                    fsWrite (makedirs fs dir) (ospJoin dir (sid.pyStr ++ ".json"))
                      (sceneContent (Json.obj kvs)))
                else .ok ("", fs)) := rfl
        rw [hw, hl]
        simp only [ht, if_true]
      · have ht2 : sid.truthy = false := by simpa using ht
        exact ⟨"", fs, by simp [write_scene_file, hl, ht2]⟩
  | null => simp [Json.isObj] at h
  | bool b => simp [Json.isObj] at h
  | num n => simp [Json.isObj] at h
  | str s => simp [Json.isObj] at h
  | arr xs => simp [Json.isObj] at h

theorem scenePath_ne_empty {dir : String} {sc : Json} (h : hasId sc = true) :
    scenePath dir sc ≠ "" := by
  cases sc with
  | obj kvs =>
    cases hl : alookup kvs "scene_id" with
    | none => simp [hasId, hl] at h
    | some sid =>
      rw [show scenePath dir (Json.obj kvs)
          = (match alookup kvs "scene_id" with
            | some sid => ospJoin dir (sid.pyStr ++ ".json")
            | none => "") from rfl, hl]
      apply ospJoin_ne_empty
      rw [strData_append]
      simp
  | null => simp [hasId] at h
  | bool b => simp [hasId] at h
  | num n => simp [hasId] at h
  | str s => simp [hasId] at h
  | arr xs => simp [hasId] at h

theorem strMem_insertDir (l : List String) (d : String) :
    strMem d (insertDir l d) = true := by
  unfold insertDir
  split_ifs with h
  · exact h
  · simp [strMem]

theorem insertDir_idem (l : List String) (d : String) :
    insertDir (insertDir l d) d = insertDir l d := by
  show (if strMem d (insertDir l d) = true then insertDir l d else d :: insertDir l d)
    = insertDir l d
  rw [if_pos (strMem_insertDir l d)]

theorem makedirs_eq (fs : FS) (d : String) :
    makedirs fs d = ⟨insertDir fs.dirs d, fs.files, fs.writeLog⟩ := rfl

/-! ### The write loop -/

theorem process_scenes_spec (dir : String) : ∀ (scenes : List Json) (fs : FS)
    (acc : List String), (∀ sc ∈ scenes, sc.isObj = true) →
    process_scenes fs dir scenes acc =
      ({ dirs := if (scenes.filter hasId).isEmpty then fs.dirs else insertDir fs.dirs dir,
         files := applyWrites fs.files (writeEntries dir scenes),
         writeLog := fs.writeLog ++ writeEntries dir scenes },
       .ok (acc ++ (writeEntries dir scenes).map Prod.fst)) := by
  intro scenes
  induction scenes with
  | nil =>
    intro fs acc h
    simp [process_scenes, writeEntries, applyWrites]
  | cons sc rest ih =>
    intro fs acc h
    have hobj : sc.isObj = true := h sc (List.mem_cons_self _ _)
    have hrest : ∀ x ∈ rest, x.isObj = true := fun x hx => h x (List.mem_cons_of_mem _ hx)
    have hstep : process_scenes fs dir (sc :: rest) acc
        = match write_scene_file fs dir sc with
          | .error e => (fs, .error e)
          | .ok (p, fs1) =>
            process_scenes fs1 dir rest (if p = "" then acc else acc ++ [p]) := rfl
    by_cases hid : hasId sc = true
    · rw [hstep, write_scene_file_write fs dir sc hid]
      have hne : scenePath dir sc ≠ "" := scenePath_ne_empty hid
      have hentries : writeEntries dir (sc :: rest)
          = (scenePath dir sc, sceneContent sc) :: writeEntries dir rest := by
        simp [writeEntries, List.filter_cons, hid]
      have hfilter : (List.filter hasId (sc :: rest)).isEmpty = false := by
        simp [List.filter_cons, hid]
      show process_scenes (fsWrite (makedirs fs dir) (scenePath dir sc) (sceneContent sc))
          dir rest (if scenePath dir sc = "" then acc else acc ++ [scenePath dir sc]) = _
      rw [if_neg hne,
        ih (fsWrite (makedirs fs dir) (scenePath dir sc) (sceneContent sc))
          (acc ++ [scenePath dir sc]) hrest,
        hentries, hfilter]
      have hdirs : (if (List.filter hasId rest).isEmpty = true
            then (fsWrite (makedirs fs dir) (scenePath dir sc) (sceneContent sc)).dirs
            else insertDir
              (fsWrite (makedirs fs dir) (scenePath dir sc) (sceneContent sc)).dirs dir)
          = insertDir fs.dirs dir := by
        by_cases he : (List.filter hasId rest).isEmpty = true
        · rw [if_pos he]
          rfl
        · rw [if_neg he]
          exact insertDir_idem fs.dirs dir
      rw [hdirs]
      simp [fsWrite, applyWrites]
      exact ⟨rfl, rfl⟩
    · have hid2 : hasId sc = false := by simpa using hid
      rw [hstep, write_scene_file_skip fs dir sc hobj hid2]
      show process_scenes fs dir rest (if "" = "" then acc else acc ++ [""]) = _
      rw [if_pos rfl, ih fs acc hrest]
      have hentries : writeEntries dir (sc :: rest) = writeEntries dir rest := by
        simp [writeEntries, List.filter_cons, hid2]
      have hfilter : List.filter hasId (sc :: rest) = List.filter hasId rest := by
        simp [List.filter_cons, hid2]
      rw [hentries, hfilter]

theorem process_scenes_ok_isObj (dir : String) : ∀ (scenes : List Json) (fs : FS)
    (acc : List String) (fs1 : FS) (w : List String),
    process_scenes fs dir scenes acc = (fs1, .ok w) → ∀ sc ∈ scenes, sc.isObj = true := by
  intro scenes
  induction scenes with
  | nil =>
    intro fs acc fs1 w h sc hm
    simp at hm
  | cons sc rest ih =>
    intro fs acc fs1 w h x hx
    have hstep : process_scenes fs dir (sc :: rest) acc
        = match write_scene_file fs dir sc with
          | .error e => (fs, .error e)
          | .ok (p, fs2) =>
            process_scenes fs2 dir rest (if p = "" then acc else acc ++ [p]) := rfl
    cases hobj : sc.isObj with
    | false =>
      rw [hstep, write_scene_file_nonobj fs dir hobj] at h
      simp at h
    | true =>
      rcases List.mem_cons.mp hx with rfl | hx2
      · exact hobj
      · obtain ⟨p, fs2, hw⟩ := write_scene_file_obj_ok fs dir hobj
        rw [hstep, hw] at h
        exact ih fs2 (if p = "" then acc else acc ++ [p]) fs1 w h x hx2

/-! ### Behavior of the entry point -/

theorem main_unfold (root : String) (fs : FS) :
    main root fs
      = match load_route_json fs (routePath root) with
        | .error e => (fs, .error e)
        | .ok route_data =>
          match route_data with
          | .obj kvs =>
            (match pyIter (match alookup kvs "scenes" with
                | some v => v
                | none => .arr []) with
              | .error e => (fs, .error e)
              | .ok sceneList =>
                match process_scenes fs (outputDir root) sceneList [] with
                | (fs1, .error e) => (fs1, .error e)
                | (fs1, .ok written) =>
                  (fs1, .ok ("written " ++ natStr written.length
                    ++ " scene files to " ++ outputDir root)))
          | _ => (fs, .error .attributeError) := rfl

theorem main_spec (root : String) (fs : FS) (content : String) (kvs : List (String × Json))
    (scenes : List Json)
    (hget : getFile fs (routePath root) = some content)
    (hparse : jsonLoads content = some (.obj kvs))
    (hscenes : alookup kvs "scenes" = some (.arr scenes))
    (hobj : ∀ sc ∈ scenes, sc.isObj = true) :
    main root fs =
      ({ dirs := if (scenes.filter hasId).isEmpty then fs.dirs
           else insertDir fs.dirs (outputDir root),
         files := applyWrites fs.files (writeEntries (outputDir root) scenes),
         writeLog := fs.writeLog ++ writeEntries (outputDir root) scenes },
       .ok ("written " ++ natStr (writeEntries (outputDir root) scenes).length
         ++ " scene files to " ++ outputDir root)) := by
  have hload : load_route_json fs (routePath root) = .ok (.obj kvs) := by
    simp [load_route_json, hget, hparse]
  rw [main_unfold, hload]
  simp only [hscenes]
  rw [show pyIter (Json.arr scenes) = .ok scenes from rfl]
  simp only [process_scenes_spec (outputDir root) scenes fs [] hobj]
  simp [List.length_map]

theorem main_missing_input (root : String) (fs : FS)
    (hget : getFile fs (routePath root) = none) :
    main root fs = (fs, .error .fileNotFound) := by
  have hload : load_route_json fs (routePath root) = .error .fileNotFound := by
    simp [load_route_json, hget]
  rw [main_unfold, hload]

theorem main_bad_json (root : String) (fs : FS) (content : String)
    (hget : getFile fs (routePath root) = some content)
    (hparse : jsonLoads content = none) :
    main root fs = (fs, .error .jsonDecodeError) := by
  have hload : load_route_json fs (routePath root) = .error .jsonDecodeError := by
    simp [load_route_json, hget, hparse]
  rw [main_unfold, hload]

/-! ### Replaying writes -/

theorem alookup_applyWrites : ∀ (E : List (String × String)) (m : List (String × String))
    (p : String), alookup (applyWrites m E) p
      = match lastWrite E p with
        | some v => some v
        | none => alookup m p := by
  intro E
  induction E with
  | nil => intro m p; rfl
  | cons e t ih =>
    intro m p
    obtain ⟨q, c⟩ := e
    show alookup (applyWrites (setKV m q c) t) p = _
    rw [ih (setKV m q c) p]
    cases hl : lastWrite t p with
    | some v => simp [lastWrite, hl]
    | none =>
      by_cases hqp : q = p
      · subst hqp
        simp [lastWrite, hl, alookup_setKV_self]
      · simp [lastWrite, hl, hqp, alookup_setKV_other m q p c (Ne.symm hqp)]

/-! ### Last characters of serialized objects -/

theorem prettyL_obj_last (k : String) (v : Json) (ps : List (String × Json)) (lvl : Nat) :
    (prettyL (.obj ((k, v) :: ps)) lvl).getLast? = some '}' := by
  rw [show prettyL (.obj ((k, v) :: ps)) lvl
      = '{' :: '\n' :: (indentChars (lvl + 1) ++ prettyPairsCore ((k, v) :: ps) (lvl + 1)
        ++ '\n' :: (indentChars lvl ++ ['}'])) from rfl]
  have hshape : '{' :: '\n' :: (indentChars (lvl + 1) ++ prettyPairsCore ((k, v) :: ps) (lvl + 1)
        ++ '\n' :: (indentChars lvl ++ ['}']))
      = ('{' :: '\n' :: (indentChars (lvl + 1) ++ prettyPairsCore ((k, v) :: ps) (lvl + 1)
        ++ '\n' :: indentChars lvl)) ++ ['}'] := by
    simp
  rw [hshape, List.getLast?_concat]

/-! ### Literal path joining -/

theorem data_ne_nil_of_ne_empty {s : String} (h : s ≠ "") : s.data ≠ [] := by
  intro hd
  apply h
  cases s with
  | mk l =>
    cases hd
    rfl

theorem strHeadIs_append_left {s r : String} {c : Char} (hs : s.data ≠ [])
    (h : strHeadIs s c = false) : strHeadIs (s ++ r) c = false := by
  cases hds : s.data with
  | nil => exact absurd hds hs
  | cons c1 t =>
    have h1 : strHeadIs s c = (decide (c1 = c)) := by
      simp [strHeadIs, hds]
    rw [h1] at h
    have h2 : (s ++ r).data = c1 :: (t ++ r.data) := by
      rw [strData_append, hds]
      rfl
    simp [strHeadIs, h2]
    simpa using h

theorem ospJoin_literal (a b : String) (ha1 : a ≠ "") (ha2 : strLastIs a '/' = false)
    (hb : strHeadIs b '/' = false) : ospJoin a b = a ++ "/" ++ b := by
  unfold ospJoin
  rw [if_neg (by simp [hb]), if_neg (by simp [ha1, ha2])]

theorem strAppend_assoc (a b c : String) : (a ++ b) ++ c = a ++ (b ++ c) := by
  cases a with
  | mk la =>
    cases b with
    | mk lb =>
      cases c with
      | mk lc =>
        show String.mk ((la ++ lb) ++ lc) = String.mk (la ++ (lb ++ lc))
        rw [List.append_assoc]

theorem main_empty_scenes (root : String) (fs : FS) (content : String)
    (kvs : List (String × Json))
    (hget : getFile fs (routePath root) = some content)
    (hparse : jsonLoads content = some (.obj kvs))
    (hscenes : alookup kvs "scenes" = some (.arr [])) :
    main root fs = (fs, .ok ("written 0 scene files to " ++ outputDir root)) := by
  have hload : load_route_json fs (routePath root) = .ok (.obj kvs) := by
    simp [load_route_json, hget, hparse]
  rw [main_unfold, hload]
  simp only [hscenes]
  rfl

/-! ## The claims -/

/-- C1: For every route document whose scenes list holds N scenes with a
truthy `scene_id` (and any number of scenes without one), running the
orchestrator performs exactly N file writes, the count it reports equals N,
and the single line printed to standard output is exactly
`written <count> scene files to <output_dir>` with `<count> = N`. -/
theorem route_split_writes_count (root : String) (fs : FS) (content : String)
    (kvs : List (String × Json)) (scenes : List Json)
    (hget : getFile fs (routePath root) = some content)
    (hparse : jsonLoads content = some (.obj kvs))
    (hscenes : alookup kvs "scenes" = some (.arr scenes))
    (hobj : ∀ sc ∈ scenes, sc.isObj = true) :
    ∃ fs1 E, main root fs
        = (fs1, .ok ("written " ++ natStr E.length ++ " scene files to " ++ outputDir root))
      ∧ fs1.writeLog = fs.writeLog ++ E
      ∧ E.length = scenes.countP hasId := by
  have hm := main_spec root fs content kvs scenes hget hparse hscenes hobj
  have hlen : (writeEntries (outputDir root) scenes).length = scenes.countP hasId := by
    simp [writeEntries, List.length_map, List.countP_eq_length_filter]
  exact ⟨_, writeEntries (outputDir root) scenes, hm, rfl, hlen⟩

/-- C1 witness: a route with one identified and one unidentified scene. -/
theorem route_split_writes_count_witness :
    getFile ⟨[], [(routePath "/r",
        "\x7b\"scenes\": [\x7b\"scene_id\": \"s1\"\x7d, \x7b\"x\": \"no id\"\x7d]\x7d")], []⟩
        (routePath "/r")
      = some "\x7b\"scenes\": [\x7b\"scene_id\": \"s1\"\x7d, \x7b\"x\": \"no id\"\x7d]\x7d"
    ∧ ∃ fs1 E,
      main "/r" ⟨[], [(routePath "/r",
          "\x7b\"scenes\": [\x7b\"scene_id\": \"s1\"\x7d, \x7b\"x\": \"no id\"\x7d]\x7d")], []⟩
        = (fs1, .ok ("written " ++ natStr E.length ++ " scene files to " ++ outputDir "/r"))
      ∧ fs1.writeLog = ([] : List (String × String)) ++ E
      ∧ E.length
        = ([Json.obj [("scene_id", Json.str "s1")], Json.obj [("x", Json.str "no id")]].countP
            hasId) :=
  ⟨rfl, route_split_writes_count "/r" _ _ [("scenes",
      .arr [Json.obj [("scene_id", Json.str "s1")], Json.obj [("x", Json.str "no id")]])]
    [Json.obj [("scene_id", Json.str "s1")], Json.obj [("x", Json.str "no id")]]
    rfl rfl rfl (by
      intro sc h
      rcases List.mem_cons.mp h with h1 | h1
      · subst h1; rfl
      · rw [List.mem_singleton] at h1
        subst h1; rfl)⟩

/-- C2: A scene whose `scene_id` field is absent or the empty string
produces the empty "not written" result, raises no exception, and leaves
the filesystem untouched: no directory is created and no file written. -/
theorem skip_scene_no_side_effect (fs : FS) (dir : String) (kvs : List (String × Json))
    (h : alookup kvs "scene_id" = none ∨ alookup kvs "scene_id" = some (.str "")) :
    write_scene_file fs dir (.obj kvs) = .ok ("", fs) := by
  rcases h with h | h
  · simp [write_scene_file, h]
  · simp [write_scene_file, h, show (Json.str "").truthy = false from rfl]

/-- C2 witness: a scene without the `scene_id` key. -/
theorem skip_scene_no_side_effect_witness :
    (alookup [("x", Json.null)] "scene_id" = none
        ∨ alookup [("x", Json.null)] "scene_id" = some (.str ""))
      ∧ write_scene_file ⟨[], [], []⟩ "out" (.obj [("x", Json.null)])
        = .ok ("", ⟨[], [], []⟩) :=
  ⟨Or.inl rfl, skip_scene_no_side_effect ⟨[], [], []⟩ "out" [("x", Json.null)] (Or.inl rfl)⟩

/-- C3: Round trip: for every scene object (with the distinct keys every
Python dict has) carrying a truthy `scene_id`, parsing the text that
`write_scene_file` writes for it as JSON yields a value structurally equal
to the original scene object. -/
theorem scene_roundtrip (fs : FS) (dir : String) (kvs : List (String × Json)) (sid : Json)
    (hwf : wfJ (.obj kvs) = true)
    (hid : alookup kvs "scene_id" = some sid) (htr : sid.truthy = true) :
    ∃ p fs1, write_scene_file fs dir (.obj kvs) = .ok (p, fs1)
      ∧ getFile fs1 p = some (jsonDump (.obj kvs) ++ "\n")
      ∧ jsonLoads (jsonDump (.obj kvs) ++ "\n") = some (.obj kvs) := by
  have hhas : hasId (.obj kvs) = true := by simp [hasId, hid, htr]
  refine ⟨scenePath dir (.obj kvs), _, write_scene_file_write fs dir _ hhas, ?_,
    jsonLoads_jsonDump _ hwf⟩
  show alookup (setKV (makedirs fs dir).files (scenePath dir (.obj kvs))
      (sceneContent (.obj kvs))) (scenePath dir (.obj kvs))
    = some (jsonDump (.obj kvs) ++ "\n")
  rw [alookup_setKV_self]
  rfl

/-- C3 witness: a scene with a non-ASCII field value. -/
theorem scene_roundtrip_witness :
    wfJ (.obj [("scene_id", Json.str "s1"), ("t", Json.str "héllo")]) = true
      ∧ ∃ p fs1, write_scene_file ⟨[], [], []⟩ "out"
            (.obj [("scene_id", Json.str "s1"), ("t", Json.str "héllo")]) = .ok (p, fs1)
        ∧ getFile fs1 p
          = some (jsonDump (.obj [("scene_id", Json.str "s1"), ("t", Json.str "héllo")]) ++ "\n")
        ∧ jsonLoads
            (jsonDump (.obj [("scene_id", Json.str "s1"), ("t", Json.str "héllo")]) ++ "\n")
          = some (.obj [("scene_id", Json.str "s1"), ("t", Json.str "héllo")]) :=
  ⟨rfl, scene_roundtrip ⟨[], [], []⟩ "out" [("scene_id", Json.str "s1"), ("t", Json.str "héllo")]
    (Json.str "s1") rfl rfl rfl⟩

/-- C4: Every written scene file holds the scene serialized as unicode JSON
text with 4-space indentation, characters at or above code point 128 left
unescaped by the escape table, and exactly one trailing newline after the
JSON body: the content ends in a newline while the serialized body itself
does not. -/
theorem scene_file_format (fs : FS) (dir : String) (kvs : List (String × Json)) (sid : Json)
    (hid : alookup kvs "scene_id" = some sid) (htr : sid.truthy = true) :
    ∃ p fs1, write_scene_file fs dir (.obj kvs) = .ok (p, fs1)
      ∧ getFile fs1 p = some (jsonDump (.obj kvs) ++ "\n")
      ∧ (jsonDump (.obj kvs) ++ "\n").data.getLast? = some '\n'
      ∧ (jsonDump (.obj kvs)).data.getLast? ≠ some '\n'
      ∧ (∀ c : Char, 128 ≤ c.toNat → escChar c = [c])
      ∧ (∀ lvl, (indentChars lvl).length = 4 * lvl) := by
  have hhas : hasId (.obj kvs) = true := by simp [hasId, hid, htr]
  refine ⟨scenePath dir (.obj kvs), _, write_scene_file_write fs dir _ hhas, ?_, ?_, ?_, ?_, ?_⟩
  · show alookup (setKV (makedirs fs dir).files (scenePath dir (.obj kvs))
        (sceneContent (.obj kvs))) (scenePath dir (.obj kvs))
      = some (jsonDump (.obj kvs) ++ "\n")
    rw [alookup_setKV_self]
    rfl
  · rw [show (jsonDump (.obj kvs) ++ "\n").data = prettyL (.obj kvs) 0 ++ ['\n'] from rfl,
      List.getLast?_concat]
  · cases kvs with
    | nil => simp [alookup] at hid
    | cons p ps =>
      obtain ⟨k, v⟩ := p
      rw [show (jsonDump (.obj ((k, v) :: ps))).data = prettyL (.obj ((k, v) :: ps)) 0 from rfl,
        prettyL_obj_last]
      simp
  · intro c hc
    have e1 : c ≠ '\\' := char_ne_of_toNat_ne (by rw [show Char.toNat '\\' = 92 from rfl]; omega)
    have e2 : c ≠ '"' := char_ne_of_toNat_ne (by rw [show Char.toNat '"' = 34 from rfl]; omega)
    have e3 : c ≠ '\n' := char_ne_of_toNat_ne (by rw [show Char.toNat '\n' = 10 from rfl]; omega)
    have e4 : c ≠ '\t' := char_ne_of_toNat_ne (by rw [show Char.toNat '\t' = 9 from rfl]; omega)
    have e5 : c ≠ '\r' := char_ne_of_toNat_ne (by rw [show Char.toNat '\r' = 13 from rfl]; omega)
    simp [escChar, e1, e2, e3, e4, e5, (show c.toNat ≠ 8 by omega),
      (show c.toNat ≠ 12 by omega), (show ¬c.toNat < 32 by omega)]
  · intro lvl
    simp [indentChars]

/-- C4 witness: a scene with a non-ASCII value. -/
theorem scene_file_format_witness :
    alookup [("scene_id", Json.str "s1"), ("t", Json.str "é")] "scene_id"
        = some (Json.str "s1")
      ∧ (Json.str "s1").truthy = true
      ∧ ∃ p fs1, write_scene_file ⟨[], [], []⟩ "out"
          (.obj [("scene_id", Json.str "s1"), ("t", Json.str "é")]) = .ok (p, fs1)
        ∧ getFile fs1 p
          = some (jsonDump (.obj [("scene_id", Json.str "s1"), ("t", Json.str "é")]) ++ "\n")
        ∧ (jsonDump (.obj [("scene_id", Json.str "s1"), ("t", Json.str "é")]) ++ "\n").data.getLast?
          = some '\n'
        ∧ (jsonDump (.obj [("scene_id", Json.str "s1"), ("t", Json.str "é")])).data.getLast?
          ≠ some '\n'
        ∧ (∀ c : Char, 128 ≤ c.toNat → escChar c = [c])
        ∧ (∀ lvl, (indentChars lvl).length = 4 * lvl) :=
  ⟨rfl, rfl, scene_file_format ⟨[], [], []⟩ "out"
    [("scene_id", Json.str "s1"), ("t", Json.str "é")] (Json.str "s1") rfl rfl⟩

/-- C5 counterexample: a `scene_id` that begins with a path separator makes
`os.path.join` discard the output directory entirely, so the derived path
is not `<output_dir>/<scene_id>.json`. -/
theorem scene_path_counterexample :
    ∃ p fs1, write_scene_file ⟨[], [], []⟩ "out" (.obj [("scene_id", Json.str "/e")])
        = .ok (p, fs1)
      ∧ p = "/e.json" ∧ p ≠ "out" ++ "/" ++ "/e" ++ ".json" := by
  refine ⟨"/e.json",
    fsWrite (makedirs ⟨[], [], []⟩ "out") "/e.json"
      (sceneContent (.obj [("scene_id", Json.str "/e")])), rfl, rfl, by decide⟩

/-- C5 (amended): for every scene with a non-empty string `scene_id` that
does not begin with a path separator, written into a non-empty output
directory that does not end with one, `write_scene_file` derives the output
path as `<output_dir>/<scene_id>.json`, joining the identifier literally
with no sanitization, and returns that path; identifiers beginning with a
separator instead make `os.path.join` discard the output directory. -/
theorem scene_path_join (fs : FS) (dir : String) (kvs : List (String × Json)) (sid : String)
    (hid : alookup kvs "scene_id" = some (.str sid)) (hne : sid ≠ "")
    (hdir1 : dir ≠ "") (hdir2 : strLastIs dir '/' = false)
    (hsid : strHeadIs sid '/' = false) :
    ∃ fs1, write_scene_file fs dir (.obj kvs)
        = .ok (dir ++ "/" ++ sid ++ ".json", fs1) := by
  have hie : sid.isEmpty = false := by
    rw [Bool.eq_false_iff]
    intro hh
    exact hne ((String.isEmpty_iff sid).mp hh)
  have htr : (Json.str sid).truthy = true := by simp [Json.truthy, hie]
  have hhas : hasId (.obj kvs) = true := by simp [hasId, hid, htr]
  have hpath : scenePath dir (.obj kvs) = dir ++ "/" ++ sid ++ ".json" := by
    rw [show scenePath dir (.obj kvs)
        = (match alookup kvs "scene_id" with
          | some s => ospJoin dir (s.pyStr ++ ".json")
          | none => "") from rfl, hid]
    show ospJoin dir ((Json.str sid).pyStr ++ ".json") = dir ++ "/" ++ sid ++ ".json"
    rw [show (Json.str sid).pyStr = sid from rfl,
      ospJoin_literal dir (sid ++ ".json") hdir1 hdir2
        (strHeadIs_append_left (data_ne_nil_of_ne_empty hne) hsid),
      ← strAppend_assoc]
  refine ⟨fsWrite (makedirs fs dir) (dir ++ "/" ++ sid ++ ".json")
    (sceneContent (.obj kvs)), ?_⟩
  rw [write_scene_file_write fs dir _ hhas, hpath]

/-- C5 witness: an identifier containing an inner separator and a traversal
sequence, joined literally. -/
theorem scene_path_join_witness :
    alookup [("scene_id", Json.str "../a/b")] "scene_id" = some (Json.str "../a/b")
      ∧ ∃ fs1, write_scene_file ⟨[], [], []⟩ "out" (.obj [("scene_id", Json.str "../a/b")])
        = .ok ("out" ++ "/" ++ "../a/b" ++ ".json", fs1) :=
  ⟨rfl, scene_path_join ⟨[], [], []⟩ "out" [("scene_id", Json.str "../a/b")] "../a/b"
    rfl (by decide) (by decide) rfl rfl⟩

/-- C6: The loader raises `FileNotFoundError` when no file exists at the
route path and `json.JSONDecodeError` when the content is not valid JSON;
in both cases the run aborts with that exception and the filesystem —
including the output directory — is untouched. -/
theorem loader_error_behavior (root : String) (fs : FS) :
    (getFile fs (routePath root) = none →
      load_route_json fs (routePath root) = .error .fileNotFound
        ∧ main root fs = (fs, .error .fileNotFound))
    ∧ (∀ content, getFile fs (routePath root) = some content → jsonLoads content = none →
      load_route_json fs (routePath root) = .error .jsonDecodeError
        ∧ main root fs = (fs, .error .jsonDecodeError)) := by
  constructor
  · intro h
    exact ⟨by simp [load_route_json, h], main_missing_input root fs h⟩
  · intro content h1 h2
    exact ⟨by simp [load_route_json, h1, h2], main_bad_json root fs content h1 h2⟩

/-- C6 witness: a missing route file and an unparsable one. -/
theorem loader_error_behavior_witness :
    main "/r" (⟨[], [], []⟩ : FS) = (⟨[], [], []⟩, .error .fileNotFound)
      ∧ main "/r" (⟨[], [(routePath "/r", "not json")], []⟩ : FS)
        = (⟨[], [(routePath "/r", "not json")], []⟩, .error .jsonDecodeError) :=
  ⟨((loader_error_behavior "/r" ⟨[], [], []⟩).1 rfl).2,
   ((loader_error_behavior "/r" ⟨[], [(routePath "/r", "not json")], []⟩).2
     "not json" rfl rfl).2⟩

/-- C7: A route document that is a JSON object without a `scenes` key is
treated as having an empty scenes list: the run succeeds, writes nothing,
leaves the filesystem unchanged, and reports count 0. -/
theorem scenes_key_absent (root : String) (fs : FS) (content : String)
    (kvs : List (String × Json))
    (hget : getFile fs (routePath root) = some content)
    (hparse : jsonLoads content = some (.obj kvs))
    (habs : alookup kvs "scenes" = none) :
    main root fs = (fs, .ok ("written 0 scene files to " ++ outputDir root)) := by
  have hload : load_route_json fs (routePath root) = .ok (.obj kvs) := by
    simp [load_route_json, hget, hparse]
  rw [main_unfold, hload]
  simp only [habs]
  rfl

/-- C7 witness: the empty-object route document. -/
theorem scenes_key_absent_witness :
    main "/r" (⟨[], [(routePath "/r", "\x7b\x7d")], []⟩ : FS)
      = (⟨[], [(routePath "/r", "\x7b\x7d")], []⟩,
         .ok ("written 0 scene files to " ++ outputDir "/r")) :=
  scenes_key_absent "/r" _ "\x7b\x7d" [] rfl rfl rfl

/-- C8: On the input `\x7b"scenes": []\x7d` the program writes zero files
and the output directory is never created: the directory-creation call
lives inside the per-scene write path and is reached for no scene, so the
filesystem is returned unchanged. -/
theorem empty_scenes_no_directory (root : String) (fs : FS)
    (hget : getFile fs (routePath root) = some "\x7b\"scenes\": []\x7d") :
    main root fs = (fs, .ok ("written 0 scene files to " ++ outputDir root))
      ∧ (main root fs).1.dirs = fs.dirs
      ∧ (main root fs).1.writeLog = fs.writeLog := by
  have hm := main_empty_scenes root fs _ [("scenes", .arr [])] hget rfl rfl
  exact ⟨hm, by rw [hm], by rw [hm]⟩

/-- C8 witness: the empty-scenes route document on an empty filesystem. -/
theorem empty_scenes_no_directory_witness :
    main "/r" (⟨[], [(routePath "/r", "\x7b\"scenes\": []\x7d")], []⟩ : FS)
        = (⟨[], [(routePath "/r", "\x7b\"scenes\": []\x7d")], []⟩,
           .ok ("written 0 scene files to " ++ outputDir "/r"))
      ∧ (main "/r" (⟨[], [(routePath "/r", "\x7b\"scenes\": []\x7d")], []⟩ : FS)).1.dirs
        = (⟨[], [(routePath "/r", "\x7b\"scenes\": []\x7d")], []⟩ : FS).dirs
      ∧ (main "/r" (⟨[], [(routePath "/r", "\x7b\"scenes\": []\x7d")], []⟩ : FS)).1.writeLog
        = (⟨[], [(routePath "/r", "\x7b\"scenes\": []\x7d")], []⟩ : FS).writeLog :=
  empty_scenes_no_directory "/r" _ rfl

/-- C9: Running the program twice on the same unchanged input produces the
same printed line both times and writes the identical sequence of
(path, content) pairs; overwriting the files of the first run leaves every
file content unchanged, so the result is deterministic. -/
theorem rerun_idempotent (root : String) (fs fs1 : FS) (line : String)
    (h1 : main root fs = (fs1, .ok line))
    (h2 : getFile fs1 (routePath root) = getFile fs (routePath root)) :
    ∃ fs2 E, main root fs1 = (fs2, .ok line)
      ∧ fs1.writeLog = fs.writeLog ++ E
      ∧ fs2.writeLog = fs1.writeLog ++ E
      ∧ ∀ p, getFile fs2 p = getFile fs1 p := by
  cases hget : getFile fs (routePath root) with
  | none =>
    rw [main_missing_input root fs hget] at h1
    simp at h1
  | some content =>
    cases hparse : jsonLoads content with
    | none =>
      rw [main_bad_json root fs content hget hparse] at h1
      simp at h1
    | some j =>
      have hload : load_route_json fs (routePath root) = .ok j := by
        simp [load_route_json, hget, hparse]
      cases j with
      | null =>
        rw [main_unfold, hload] at h1
        simp at h1
      | bool b =>
        rw [main_unfold, hload] at h1
        simp at h1
      | num n =>
        rw [main_unfold, hload] at h1
        simp at h1
      | str s =>
        rw [main_unfold, hload] at h1
        simp at h1
      | arr xs =>
        rw [main_unfold, hload] at h1
        simp at h1
      | obj kvs =>
        cases hiter : pyIter (match alookup kvs "scenes" with
            | some v => v
            | none => Json.arr []) with
        | error e =>
          rw [main_unfold, hload] at h1
          simp only [hiter] at h1
          simp at h1
        | ok sceneList =>
          cases hproc : process_scenes fs (outputDir root) sceneList [] with
          | mk fs1p r =>
            cases r with
            | error e =>
              rw [main_unfold, hload] at h1
              simp only [hiter, hproc] at h1
              simp at h1
            | ok written =>
              rw [main_unfold, hload] at h1
              simp only [hiter, hproc] at h1
              simp only [Prod.mk.injEq, Except.ok.injEq] at h1
              obtain ⟨hfs, hline⟩ := h1
              have hobj := process_scenes_ok_isObj (outputDir root) sceneList fs []
                fs1p written hproc
              have hspec := process_scenes_spec (outputDir root) sceneList fs [] hobj
              rw [hspec] at hproc
              simp only [Prod.mk.injEq, Except.ok.injEq] at hproc
              obtain ⟨hrec, hwr⟩ := hproc
              have hget2 : getFile fs1 (routePath root) = some content := by
                rw [h2, hget]
              have hload2 : load_route_json fs1 (routePath root) = .ok (.obj kvs) := by
                simp [load_route_json, hget2, hparse]
              have hspec2 := process_scenes_spec (outputDir root) sceneList fs1 [] hobj
              refine ⟨⟨if (sceneList.filter hasId).isEmpty = true then fs1.dirs
                  else insertDir fs1.dirs (outputDir root),
                applyWrites fs1.files (writeEntries (outputDir root) sceneList),
                fs1.writeLog ++ writeEntries (outputDir root) sceneList⟩,
                writeEntries (outputDir root) sceneList, ?_, ?_, rfl, ?_⟩
              · rw [main_unfold, hload2]
                simp only [hiter, hspec2]
                rw [hwr, hline]
              · rw [← hfs, ← hrec]
              · intro p
                show alookup (applyWrites fs1.files (writeEntries (outputDir root) sceneList)) p
                  = getFile fs1 p
                rw [alookup_applyWrites]
                have hf1 : getFile fs1 p
                    = match lastWrite (writeEntries (outputDir root) sceneList) p with
                      | some v => some v
                      | none => getFile fs p := by
                  rw [← hfs, ← hrec]
                  show alookup (applyWrites fs.files (writeEntries (outputDir root) sceneList)) p
                    = _
                  rw [alookup_applyWrites]
                  rfl
                cases hl : lastWrite (writeEntries (outputDir root) sceneList) p with
                | some v =>
                  simp only [hl]
                  rw [hf1]
                  simp only [hl]
                | none =>
                  simp only [hl]
                  rfl

/-- C9 witness: two runs on the one-scene example route. -/
theorem rerun_idempotent_witness :
    main "/r" demoFS
        = ((main "/r" demoFS).1, .ok "written 1 scene files to /r/data/route_gu_wan_scenes")
      ∧ getFile (main "/r" demoFS).1 (routePath "/r") = getFile demoFS (routePath "/r")
      ∧ ∃ fs2 E, main "/r" ((main "/r" demoFS).1)
            = (fs2, .ok "written 1 scene files to /r/data/route_gu_wan_scenes")
          ∧ ((main "/r" demoFS).1).writeLog = demoFS.writeLog ++ E
          ∧ fs2.writeLog = ((main "/r" demoFS).1).writeLog ++ E
          ∧ ∀ p, getFile fs2 p = getFile ((main "/r" demoFS).1) p :=
  ⟨rfl, rfl, rerun_idempotent "/r" demoFS _ _ rfl rfl⟩

/-- C10: Scenes sharing one identifier are written in list order to the
same derived path, so the file finally on disk holds the serialization of
the last such scene, while the reported count counts every write — the
count can therefore exceed the number of distinct output files, as the
two-scene example with a shared identifier shows. -/
theorem duplicate_ids_last_write (root : String) (fs : FS) (content : String)
    (kvs : List (String × Json)) (scenes : List Json)
    (hget : getFile fs (routePath root) = some content)
    (hparse : jsonLoads content = some (.obj kvs))
    (hscenes : alookup kvs "scenes" = some (.arr scenes))
    (hobj : ∀ sc ∈ scenes, sc.isObj = true) :
    ∃ fs1 E, main root fs
        = (fs1, .ok ("written " ++ natStr E.length ++ " scene files to " ++ outputDir root))
      ∧ E = writeEntries (outputDir root) scenes
      ∧ fs1.writeLog = fs.writeLog ++ E
      ∧ (∀ p, getFile fs1 p
          = match lastWrite E p with
            | some v => some v
            | none => getFile fs p)
      ∧ E.length = scenes.countP hasId
      ∧ [demoDupScene1, demoDupScene2].countP hasId = 2
      ∧ scenePath "out" demoDupScene1 = scenePath "out" demoDupScene2
      ∧ lastWrite (writeEntries "out" [demoDupScene1, demoDupScene2])
          (scenePath "out" demoDupScene1)
        = some (sceneContent demoDupScene2) := by
  have hm := main_spec root fs content kvs scenes hget hparse hscenes hobj
  have hlen : (writeEntries (outputDir root) scenes).length = scenes.countP hasId := by
    simp [writeEntries, List.length_map, List.countP_eq_length_filter]
  refine ⟨_, writeEntries (outputDir root) scenes, hm, rfl, rfl, ?_, hlen, rfl, rfl, rfl⟩
  intro p
  show alookup (applyWrites fs.files (writeEntries (outputDir root) scenes)) p
    = match lastWrite (writeEntries (outputDir root) scenes) p with
      | some v => some v
      | none => getFile fs p
  rw [alookup_applyWrites]
  rfl

/-- C10 witness: the duplicate-identifier route. -/
theorem duplicate_ids_last_write_witness :
    getFile demoDupFS (routePath "/r") = some demoDupRoute
      ∧ jsonLoads demoDupRoute
        = some (.obj [("scenes", .arr [demoDupScene1, demoDupScene2])])
      ∧ ∃ fs1 E, main "/r" demoDupFS
          = (fs1, .ok ("written " ++ natStr E.length ++ " scene files to " ++ outputDir "/r"))
        ∧ E = writeEntries (outputDir "/r") [demoDupScene1, demoDupScene2]
        ∧ fs1.writeLog = demoDupFS.writeLog ++ E
        ∧ (∀ p, getFile fs1 p
            = match lastWrite E p with
              | some v => some v
              | none => getFile demoDupFS p)
        ∧ E.length = [demoDupScene1, demoDupScene2].countP hasId
        ∧ [demoDupScene1, demoDupScene2].countP hasId = 2
        ∧ scenePath "out" demoDupScene1 = scenePath "out" demoDupScene2
        ∧ lastWrite (writeEntries "out" [demoDupScene1, demoDupScene2])
            (scenePath "out" demoDupScene1)
          = some (sceneContent demoDupScene2) :=
  ⟨rfl, rfl, duplicate_ids_last_write "/r" demoDupFS demoDupRoute
    [("scenes", .arr [demoDupScene1, demoDupScene2])] [demoDupScene1, demoDupScene2]
    rfl rfl rfl (by
      intro sc h
      rcases List.mem_cons.mp h with h1 | h1
      · subst h1; rfl
      · rw [List.mem_singleton] at h1
        subst h1; rfl)⟩

end RouteSplit
